import Mathlib

/-!
Verification of the availability calculation engine
(`backend/availability/utils.py`, `backend/availability/serializers.py`).

The Python source is shallowly embedded: database querysets become lists
carried in an `Env` record, `datetime.date` becomes `PyDate` (CPython's
civil-calendar semantics), aware datetimes become `AwareDt` values whose
UTC projection is determined by a fixed-offset timezone oracle, and the
Django cache becomes an explicit state record.  Machine integers are
`Int`/`Nat`.
-/

namespace Availability

/-! ### Decimal rendering and parsing of naturals (CPython `str`/`int`) -/

/-- Decimal digits of a natural, most significant first, via explicit fuel
(`fuel ≥ n` always suffices). -/
def natCharsAux : Nat → Nat → List Char
  | 0, _ => []
  | fuel + 1, n =>
    if n < 10 then [Nat.digitChar n]
    else natCharsAux fuel (n / 10) ++ [Nat.digitChar (n % 10)]

/-- Decimal digit string of a natural, as CPython `str` renders a
nonnegative `int`. -/
def natChars (n : Nat) : List Char := natCharsAux (n + 1) n

/-- Value of a decimal digit string (reads junk on non-digits). -/
def strVal (cs : List Char) : Nat :=
  cs.foldl (fun a c => a * 10 + (c.toNat - 48)) 0

/-- Left-pad a decimal rendering with zeros to width `w`
(CPython `%0wd`). -/
def padChars (w n : Nat) : List Char :=
  List.replicate (w - (natChars n).length) '0' ++ natChars n

theorem digitChar_toNat {k : Nat} (h : k < 10) :
    (Nat.digitChar k).toNat = 48 + k := by
  interval_cases k <;> decide

theorem digitChar_isDigit {k : Nat} (h : k < 10) :
    (Nat.digitChar k).isDigit = true := by
  interval_cases k <;> decide

theorem digitChar_ne_colon {k : Nat} (h : k < 10) :
    Nat.digitChar k ≠ ':' := by
  interval_cases k <;> decide

theorem strVal_append (cs ds : List Char) :
    strVal (cs ++ ds) = ds.foldl (fun a c => a * 10 + (c.toNat - 48)) (strVal cs) := by
  simp [strVal, List.foldl_append]

theorem strVal_natCharsAux : ∀ (fuel n : Nat), n ≤ fuel →
    strVal (natCharsAux fuel n) = n := by
  intro fuel
  induction fuel with
  | zero => intro n h; interval_cases n; decide
  | succ f ih =>
    intro n h
    by_cases h10 : n < 10
    · simp only [natCharsAux, if_pos h10]
      simp [strVal, digitChar_toNat h10]
    · simp only [natCharsAux, if_neg h10]
      rw [strVal_append, ih (n / 10) (by omega)]
      simp only [List.foldl_cons, List.foldl_nil]
      rw [digitChar_toNat (Nat.mod_lt _ (by norm_num))]
      omega

theorem strVal_natChars (n : Nat) : strVal (natChars n) = n :=
  strVal_natCharsAux (n + 1) n (by omega)

theorem strVal_padChars (w n : Nat) : strVal (padChars w n) = n := by
  rw [padChars, strVal_append]
  have hz : ∀ (k : Nat), strVal (List.replicate k '0') = 0 := by
    intro k
    induction k with
    | zero => rfl
    | succ m ih =>
      rw [List.replicate_succ]
      show strVal ('0' :: List.replicate m '0') = 0
      simpa [strVal] using ih
  rw [hz]
  exact strVal_natChars n

theorem natCharsAux_digits : ∀ (fuel n : Nat), n ≤ fuel →
    ∀ c ∈ natCharsAux fuel n, c.isDigit = true := by
  intro fuel
  induction fuel with
  | zero => intro n h c hc; interval_cases n; simp [natCharsAux] at hc
  | succ f ih =>
    intro n h c hc
    by_cases h10 : n < 10
    · simp only [natCharsAux, if_pos h10, List.mem_singleton] at hc
      subst hc; exact digitChar_isDigit h10
    · simp only [natCharsAux, if_neg h10, List.mem_append, List.mem_singleton] at hc
      rcases hc with hc | hc
      · exact ih (n / 10) (by omega) c hc
      · subst hc; exact digitChar_isDigit (Nat.mod_lt _ (by norm_num))

theorem natChars_digits (n : Nat) : ∀ c ∈ natChars n, c.isDigit = true :=
  natCharsAux_digits (n + 1) n (by omega)

theorem padChars_digits (w n : Nat) : ∀ c ∈ padChars w n, c.isDigit = true := by
  intro c hc
  rw [padChars, List.mem_append] at hc
  rcases hc with hc | hc
  · rw [List.eq_of_mem_replicate hc]; decide
  · exact natChars_digits n c hc

theorem natCharsAux_length_le : ∀ (fuel n : Nat), n ≤ fuel → n < 100 →
    (natCharsAux fuel n).length ≤ 2 := by
  intro fuel
  induction fuel with
  | zero => intro n h _; interval_cases n; decide
  | succ f ih =>
    intro n h h100
    by_cases h10 : n < 10
    · simp [natCharsAux, if_pos h10]
    · simp only [natCharsAux, if_neg h10, List.length_append, List.length_singleton]
      have : n / 10 < 10 := by omega
      have hlen : (natCharsAux f (n / 10)).length ≤ 1 := by
        have hf : n / 10 ≤ f := by omega
        rcases f with _ | f2
        · simp [natCharsAux]
        · simp only [natCharsAux, if_pos this, List.length_singleton]; omega
      omega

theorem padChars_two_length {n : Nat} (h : n < 100) :
    (padChars 2 n).length = 2 := by
  rw [padChars, List.length_append, List.length_replicate]
  have := natCharsAux_length_le (n + 1) n (by omega) h
  rw [natChars]
  omega

/-! ### CPython `datetime.date` -/

/-- CPython `datetime._is_leap`. -/
def is_leap (y : Nat) : Bool := (y % 4 == 0 && y % 100 != 0) || y % 400 == 0

/-- CPython `_DAYS_BEFORE_MONTH` table (non-leap cumulative days). -/
def daysBeforeMonthTable (m : Nat) : Nat :=
  match m with
  | 1 => 0 | 2 => 31 | 3 => 59 | 4 => 90 | 5 => 120 | 6 => 151
  | 7 => 181 | 8 => 212 | 9 => 243 | 10 => 273 | 11 => 304 | 12 => 334
  | _ => 0

/-- CPython `datetime._days_in_month`. -/
def days_in_month (y m : Nat) : Nat :=
  if m = 2 then (if is_leap y then 29 else 28)
  else if m = 4 ∨ m = 6 ∨ m = 9 ∨ m = 11 then 30
  else 31

/-- CPython `datetime._days_before_year`. -/
def days_before_year (year : Nat) : Nat :=
  let y := year - 1
  y * 365 + y / 4 - y / 100 + y / 400

/-- CPython `datetime._days_before_month`. -/
def days_before_month (y m : Nat) : Nat :=
  daysBeforeMonthTable m + (if 2 < m ∧ is_leap y then 1 else 0)

/-- A CPython `datetime.date`: the constructor enforces these field
bounds (the `year ≤ 9999` ceiling is not carried, it affects no claim). -/
structure PyDate where
  year : Nat
  month : Nat
  day : Nat
  year_ge : 1 ≤ year
  month_ge : 1 ≤ month
  month_le : month ≤ 12
  day_ge : 1 ≤ day
  day_le : day ≤ days_in_month year month

theorem PyDate.ext_iff' (a b : PyDate) :
    a = b ↔ a.year = b.year ∧ a.month = b.month ∧ a.day = b.day := by
  constructor
  · intro h; subst h; exact ⟨rfl, rfl, rfl⟩
  · rintro ⟨h1, h2, h3⟩
    cases a; cases b; simp_all

instance : DecidableEq PyDate := fun a b =>
  decidable_of_iff _ (PyDate.ext_iff' a b).symm

/-- CPython `date.toordinal` (`_ymd2ord`): day number with
0001-01-01 as day 1. -/
def toordinal (d : PyDate) : Nat :=
  days_before_year d.year + days_before_month d.year d.month + d.day

/-- CPython `date.weekday`: Monday is 0. -/
def weekday (d : PyDate) : Nat := (toordinal d + 6) % 7

/-- CPython `date.__le__`: lexicographic comparison of `(y, m, d)`. -/
def dateLe (a b : PyDate) : Bool :=
  a.year < b.year ∨ (a.year = b.year ∧
    (a.month < b.month ∨ (a.month = b.month ∧ a.day ≤ b.day)))

/-- CPython `date.__lt__`. -/
def dateLt (a b : PyDate) : Bool :=
  a.year < b.year ∨ (a.year = b.year ∧
    (a.month < b.month ∨ (a.month = b.month ∧ a.day < b.day)))

/-- `(b - a).days` for two CPython dates (timedelta subtraction works on
ordinals). -/
def dateSubDays (b a : PyDate) : Int := (toordinal b : Int) - (toordinal a : Int)

theorem days_in_month_pos (y m : Nat) : 1 ≤ days_in_month y m := by
  unfold days_in_month; split <;> [split; split] <;> omega

theorem days_in_month_le (y m : Nat) : days_in_month y m ≤ 31 := by
  unfold days_in_month; split <;> [split; split] <;> omega

/-- `date + timedelta(days=1)`: the civil successor. -/
def nextDay (d : PyDate) : PyDate :=
  if h : d.day < days_in_month d.year d.month then
    ⟨d.year, d.month, d.day + 1, d.year_ge, d.month_ge, d.month_le, by omega, h⟩
  else if h2 : d.month < 12 then
    ⟨d.year, d.month + 1, 1, d.year_ge, by omega, by omega, le_rfl,
      days_in_month_pos _ _⟩
  else
    ⟨d.year + 1, 1, 1, by omega, le_rfl, by omega, le_rfl, days_in_month_pos _ _⟩

/-- `date.isoformat`: `YYYY-MM-DD` with zero padding. -/
def isoformat (d : PyDate) : String :=
  ⟨padChars 4 d.year ++ '-' :: (padChars 2 d.month ++ '-' :: padChars 2 d.day)⟩

/-! #### Calendar arithmetic facts -/

set_option maxHeartbeats 1000000 in
theorem days_before_year_succ (y : Nat) (h : 1 ≤ y) :
    days_before_year (y + 1) =
      days_before_year y + 365 + (if is_leap y then 1 else 0) := by
  unfold days_before_year is_leap
  simp only [Nat.add_sub_cancel]
  split <;> rename_i hl
  · simp only [Bool.or_eq_true, Bool.and_eq_true, beq_iff_eq, bne_iff_ne,
      ne_eq] at hl
    omega
  · simp only [Bool.or_eq_true, Bool.and_eq_true, beq_iff_eq, bne_iff_ne,
      ne_eq, not_or, not_and] at hl
    omega

set_option maxHeartbeats 1000000 in
/-- Day-of-year (`days_before_month + day`) is bounded by the year length. -/
theorem doy_le (y m d : Nat) (hm1 : 1 ≤ m) (hm : m ≤ 12)
    (hd : d ≤ days_in_month y m) :
    days_before_month y m + d ≤ 365 + (if is_leap y then 1 else 0) := by
  unfold days_before_month days_in_month at *
  cases hl : is_leap y <;>
    interval_cases m <;> simp_all [daysBeforeMonthTable] <;> omega

set_option maxHeartbeats 4000000 in
/-- Within one year, lexicographically earlier `(month, day)` gives a
strictly smaller day-of-year. -/
theorem doy_strict_mono (y m1 d1 m2 d2 : Nat)
    (hm1a : 1 ≤ m1) (hm1b : m1 ≤ 12) (hd1a : 1 ≤ d1)
    (hd1b : d1 ≤ days_in_month y m1)
    (hm2a : 1 ≤ m2) (hm2b : m2 ≤ 12) (hd2a : 1 ≤ d2)
    (hlex : m1 < m2 ∨ (m1 = m2 ∧ d1 < d2)) :
    days_before_month y m1 + d1 < days_before_month y m2 + d2 := by
  unfold days_before_month days_in_month at *
  cases hl : is_leap y <;>
    interval_cases m1 <;> interval_cases m2 <;>
      simp_all [daysBeforeMonthTable] <;> omega

theorem days_before_year_mono (s : Nat) (hs : 1 ≤ s) :
    ∀ t, s ≤ t → days_before_year s ≤ days_before_year t := by
  intro t
  induction t with
  | zero => intro h; omega
  | succ k ih =>
    intro h
    rcases Nat.lt_or_ge s (k + 1) with hlt | hge
    · have h1 := ih (by omega)
      have h2 := days_before_year_succ k (by omega)
      omega
    · have hks : s = k + 1 := by omega
      rw [hks]

theorem toordinal_lt_year_bound (a : PyDate) :
    toordinal a < days_before_year (a.year + 1) + 1 := by
  have hdoy := doy_le a.year a.month a.day a.month_ge a.month_le a.day_le
  have hstep := days_before_year_succ a.year a.year_ge
  unfold toordinal
  omega

theorem toordinal_lt_of_dateLt (a b : PyDate) (h : dateLt a b = true) :
    toordinal a < toordinal b := by
  have hlex : a.year < b.year ∨ (a.year = b.year ∧
      (a.month < b.month ∨ (a.month = b.month ∧ a.day < b.day))) := by
    simpa [dateLt] using h
  rcases hlex with hy | ⟨hy, hmd⟩
  · -- strictly earlier year: bound through the start of year `a.year + 1`
    have h1 : toordinal a < days_before_year (a.year + 1) + 1 :=
      toordinal_lt_year_bound a
    have h2 := days_before_year_mono (a.year + 1) (by have := a.year_ge; omega)
      b.year (by omega)
    have hb1 : 1 ≤ days_before_month b.year b.month + b.day := by
      have := b.day_ge; omega
    have hgoal : days_before_year (a.year + 1) + 1 ≤ toordinal b := by
      unfold toordinal; omega
    omega
  · unfold toordinal
    rw [hy]
    have := doy_strict_mono b.year a.month a.day b.month b.day
      a.month_ge a.month_le a.day_ge (hy ▸ a.day_le)
      b.month_ge b.month_le b.day_ge hmd
    omega

theorem dateLe_iff (a b : PyDate) :
    dateLe a b = true ↔ dateLt a b = true ∨ a = b := by
  rw [PyDate.ext_iff']
  simp only [dateLe, dateLt, decide_eq_true_eq]
  omega

theorem toordinal_le_of_dateLe (a b : PyDate) (h : dateLe a b = true) :
    toordinal a ≤ toordinal b := by
  rcases (dateLe_iff a b).mp h with hlt | rfl
  · exact le_of_lt (toordinal_lt_of_dateLt a b hlt)
  · exact le_rfl

theorem dateLt_nextDay (d : PyDate) : dateLt d (nextDay d) = true := by
  unfold nextDay
  split
  · simp [dateLt]
  · split <;> simp [dateLt]

theorem toordinal_nextDay_gt (d : PyDate) : toordinal d < toordinal (nextDay d) :=
  toordinal_lt_of_dateLt d (nextDay d) (dateLt_nextDay d)

theorem dateLe_false_of_dateLt (a b : PyDate) (h : dateLt b a = true) :
    dateLe a b = false := by
  simp only [dateLt, decide_eq_true_eq] at h
  simp only [dateLe, decide_eq_false_iff_not]
  omega

/-! #### Injectivity of `isoformat` -/

theorem isoformat_inj (a b : PyDate) (h : isoformat a = isoformat b) :
    a = b := by
  have hdata : padChars 4 a.year ++ '-' :: (padChars 2 a.month ++ '-' :: padChars 2 a.day)
      = padChars 4 b.year ++ '-' :: (padChars 2 b.month ++ '-' :: padChars 2 b.day) := by
    have := congrArg String.data h
    simpa [isoformat] using this
  -- peel from the right: the month/day fields have fixed width 2
  have hrev := congrArg List.reverse hdata
  simp only [List.reverse_append, List.reverse_cons] at hrev
  have hma : a.month < 100 := by have := a.month_le; omega
  have hmb : b.month < 100 := by have := b.month_le; omega
  have hda : a.day < 100 := by
    have := a.day_le; have := days_in_month_le a.year a.month; omega
  have hdb : b.day < 100 := by
    have := b.day_le; have := days_in_month_le b.year b.month; omega
  -- `rev day ++ '-' :: rev month ++ '-' :: rev year` shape on both sides
  simp only [List.append_assoc, List.singleton_append] at hrev
  have hdaylen : (padChars 2 a.day).reverse.length = (padChars 2 b.day).reverse.length := by
    simp [padChars_two_length hda, padChars_two_length hdb]
  obtain ⟨hd1, hd2⟩ := List.append_inj hrev hdaylen
  have hmonlen : ('-' :: (padChars 2 a.month).reverse).length
      = ('-' :: (padChars 2 b.month).reverse).length := by
    simp [padChars_two_length hma, padChars_two_length hmb]
  obtain ⟨hm1, hm2⟩ := List.append_inj hd2 hmonlen
  rw [List.cons_eq_cons] at hm1 hm2
  obtain ⟨-, hm1⟩ := hm1
  obtain ⟨-, hy1⟩ := hm2
  have hyear : a.year = b.year := by
    have := congrArg List.reverse hy1
    simp only [List.reverse_reverse] at this
    have := congrArg strVal this
    rwa [strVal_padChars, strVal_padChars] at this
  have hmonth : a.month = b.month := by
    have := congrArg List.reverse hm1
    simp only [List.reverse_reverse] at this
    have := congrArg strVal this
    rwa [strVal_padChars, strVal_padChars] at this
  have hday : a.day = b.day := by
    have := congrArg List.reverse hd1
    simp only [List.reverse_reverse] at this
    have := congrArg strVal this
    rwa [strVal_padChars, strVal_padChars] at this
  exact (PyDate.ext_iff' a b).mpr ⟨hyear, hmonth, hday⟩

theorem isoformat_no_colon (d : PyDate) : ':' ∉ (isoformat d).data := by
  intro hmem
  simp only [isoformat, List.mem_append, List.mem_cons] at hmem
  rcases hmem with h | h | h
  · have := padChars_digits 4 d.year ':' h; simp at this
  · exact absurd h.symm (by decide)
  · rcases h with h | h | h
    · have := padChars_digits 2 d.month ':' h; simp at this
    · exact absurd h.symm (by decide)
    · have := padChars_digits 2 d.day ':' h; simp at this

/-! ### `are_time_intervals_overlapping` and `_time_to_minutes`
(utils.py lines 35-88) -/

/-- CPython `str.split(sep)` for a single-character separator. -/
def splitOnChar (sep : Char) : List Char → List (List Char)
  | [] => [[]]
  | c :: cs =>
    match splitOnChar sep cs with
    | [] => [[]]
    | g :: gs => if c = sep then [] :: g :: gs else (c :: g) :: gs

/-- CPython `int(str)` on an already-whitespace-trimmed character list:
an optional sign followed by at least one decimal digit. -/
def pyIntChars (cs : List Char) : Option Int :=
  match cs with
  | [] => none
  | c :: ds =>
    if c = '-' then
      if ds ≠ [] ∧ ds.all Char.isDigit then some (-(strVal ds : Int)) else none
    else if c = '+' then
      if ds ≠ [] ∧ ds.all Char.isDigit then some ((strVal ds : Int)) else none
    else if (c :: ds).all Char.isDigit then some ((strVal (c :: ds) : Int)) else none

/-- CPython `int(str)`: strip surrounding whitespace, then parse. -/
def pyInt (cs : List Char) : Option Int :=
  pyIntChars (((cs.dropWhile Char.isWhitespace).reverse.dropWhile
    Char.isWhitespace).reverse)

/-- `_time_to_minutes` (utils.py line 80): `int(parts[0]) * 60 +
int(parts[1])`, with `ValueError`/`IndexError` swallowed into `0`. -/
def _time_to_minutes (time_str : String) : Int :=
  match splitOnChar ':' time_str.data with
  | p0 :: p1 :: _ =>
    match pyInt p0, pyInt p1 with
    | some hours, some minutes => hours * 60 + minutes
    | _, _ => 0
  | _ => 0

/-- `are_time_intervals_overlapping` (utils.py line 35). -/
def are_time_intervals_overlapping (start1 end1 start2 end2 : String)
    (allow_adjacency : Bool := false) : Bool :=
  if start1 = "" ∨ end1 = "" ∨ start2 = "" ∨ end2 = "" then false
  else
    let start1_minutes := _time_to_minutes start1
    let end1_minutes := _time_to_minutes end1
    let start2_minutes := _time_to_minutes start2
    let end2_minutes := _time_to_minutes end2
    let end1_minutes :=
      if end1_minutes < start1_minutes then end1_minutes + 24 * 60 else end1_minutes
    let end2_minutes :=
      if end2_minutes < start2_minutes then end2_minutes + 24 * 60 else end2_minutes
    if allow_adjacency then
      decide (start1_minutes ≤ end2_minutes) && decide (end1_minutes ≥ start2_minutes)
    else
      decide (start1_minutes < end2_minutes) && decide (end1_minutes > start2_minutes)

/-- Render `t` minutes-from-midnight as an `HH:MM:SS` string
(CPython `time.strftime` shape used by the serializers). -/
def todStr (t : Nat) : String :=
  ⟨padChars 2 (t / 60) ++ ':' :: (padChars 2 (t % 60) ++ ':' :: padChars 2 0)⟩

/-- Reference overlap on minutes, normalizing an interval as
midnight-spanning exactly when its end is strictly below its start
(the behavior the code implements). -/
def overlap_minutes_strict_norm (a b c d : Int) (adj : Bool) : Bool :=
  let b' := if b < a then b + 24 * 60 else b
  let d' := if d < c then d + 24 * 60 else d
  if adj then decide (a ≤ d') && decide (b' ≥ c)
  else decide (a < d') && decide (b' > c)

/-- Reference overlap on minutes following the claim's words: normalize
whenever end `≤` start ("end == start spans a full day"). -/
def overlap_minutes_le_norm (a b c d : Int) (adj : Bool) : Bool :=
  let b' := if b ≤ a then b + 24 * 60 else b
  let d' := if d ≤ c then d + 24 * 60 else d
  if adj then decide (a ≤ d') && decide (b' ≥ c)
  else decide (a < d') && decide (b' > c)

/-! #### Parsing facts for rendered times -/

theorem digit_not_ws (c : Char) (h : c.isDigit = true) :
    c.isWhitespace = false := by
  by_contra hw
  rw [Bool.not_eq_false] at hw
  unfold Char.isWhitespace at hw
  simp only [Bool.or_eq_true, decide_eq_true_eq] at hw
  rcases hw with ((rfl | rfl) | rfl) | rfl <;> exact absurd h (by decide)

theorem dropWhile_ws_of_digits (cs : List Char)
    (h : ∀ c ∈ cs, c.isDigit = true) :
    cs.dropWhile Char.isWhitespace = cs := by
  cases cs with
  | nil => rfl
  | cons c rest =>
    have hc := digit_not_ws c (h c (List.mem_cons_self c rest))
    simp [List.dropWhile_cons, hc]

theorem pyInt_digits (cs : List Char) (hne : cs ≠ [])
    (h : ∀ c ∈ cs, c.isDigit = true) :
    pyInt cs = some ((strVal cs : Int)) := by
  have hrev : ∀ c ∈ cs.reverse, c.isDigit = true := by
    intro c hc; exact h c (List.mem_reverse.mp hc)
  rw [pyInt, dropWhile_ws_of_digits cs h, dropWhile_ws_of_digits _ hrev,
    List.reverse_reverse]
  cases cs with
  | nil => exact absurd rfl hne
  | cons c rest =>
    have hc := h c (List.mem_cons_self c rest)
    have hcm : c ≠ '-' := by rintro rfl; exact absurd hc (by decide)
    have hcp : c ≠ '+' := by rintro rfl; exact absurd hc (by decide)
    have hall : (c :: rest).all Char.isDigit = true := by
      rw [List.all_eq_true]; exact h
    simp only [pyIntChars, if_neg hcm, if_neg hcp, if_pos hall]

theorem splitOnChar_ne_nil (sep : Char) (l : List Char) :
    splitOnChar sep l ≠ [] := by
  cases l with
  | nil => simp [splitOnChar]
  | cons c cs =>
    rw [splitOnChar]
    cases h : splitOnChar sep cs with
    | nil => simp
    | cons g gs => by_cases hc : c = sep <;> simp [hc]

theorem splitOnChar_cons_sep (sep : Char) (r : List Char) :
    ∀ a, sep ∉ a →
      splitOnChar sep (a ++ sep :: r) = a :: splitOnChar sep r := by
  intro a
  induction a with
  | nil =>
    intro _
    rw [List.nil_append, splitOnChar]
    cases h : splitOnChar sep r with
    | nil => exact absurd h (splitOnChar_ne_nil sep r)
    | cons g gs => simp
  | cons c cs ih =>
    intro hmem
    have hcs : sep ∉ cs := fun h => hmem (List.mem_cons_of_mem c h)
    have hc : c ≠ sep := fun h => hmem (h ▸ List.mem_cons_self c cs)
    rw [List.cons_append, splitOnChar, ih hcs]
    simp [hc]

theorem splitOnChar_no_sep (sep : Char) :
    ∀ a, sep ∉ a → splitOnChar sep a = [a] := by
  intro a
  induction a with
  | nil => intro _; rfl
  | cons c cs ih =>
    intro hmem
    have hcs : sep ∉ cs := fun h => hmem (List.mem_cons_of_mem c h)
    have hc : c ≠ sep := fun h => hmem (h ▸ List.mem_cons_self c cs)
    rw [splitOnChar, ih hcs]
    simp [hc]

theorem padChars_no_colon (w n : Nat) : ':' ∉ padChars w n := by
  intro h
  exact absurd (padChars_digits w n ':' h) (by decide)

theorem padChars_ne_nil (w n : Nat) : padChars w n ≠ [] := by
  unfold padChars natChars natCharsAux
  by_cases h : n < 10
  · simp [if_pos h]
  · simp [if_neg h]

theorem todStr_ne_empty (t : Nat) : todStr t ≠ "" := by
  intro h
  have hd := congrArg String.data h
  simp only [todStr] at hd
  exact absurd (List.append_eq_nil.mp hd).1 (padChars_ne_nil 2 (t / 60))

theorem time_to_minutes_todStr (t : Nat) :
    _time_to_minutes (todStr t) = (t : Int) := by
  unfold _time_to_minutes todStr
  show (match splitOnChar ':' (padChars 2 (t / 60) ++ ':'
      :: (padChars 2 (t % 60) ++ ':' :: padChars 2 0)) with
    | p0 :: p1 :: _ =>
      match pyInt p0, pyInt p1 with
      | some hours, some minutes => hours * 60 + minutes
      | _, _ => 0
    | _ => 0) = (t : Int)
  rw [splitOnChar_cons_sep ':' _ _ (padChars_no_colon 2 (t / 60)),
    splitOnChar_cons_sep ':' _ _ (padChars_no_colon 2 (t % 60))]
  show (match pyInt (padChars 2 (t / 60)), pyInt (padChars 2 (t % 60)) with
    | some hours, some minutes => hours * 60 + minutes
    | _, _ => 0) = (t : Int)
  rw [pyInt_digits _ (padChars_ne_nil 2 (t / 60)) (padChars_digits 2 (t / 60)),
    pyInt_digits _ (padChars_ne_nil 2 (t % 60)) (padChars_digits 2 (t % 60))]
  simp only [strVal_padChars]
  exact_mod_cast (Nat.mul_comm 60 (t / 60)) ▸ Nat.div_add_mod t 60

/-! ### Aware datetimes over a fixed-offset timezone oracle

The engine is generic over the IANA database: `Offsets` maps a zone name
to its UTC offset in minutes (fixed-offset model; no claim in scope
depends on DST transitions).  An aware datetime is its naive local
wall-clock value (minutes since 0001-01-01 00:00) plus its zone, and
CPython compares aware datetimes by their UTC projection. -/

def Offsets := String → Int

structure AwareDt where
  localMin : Int
  tz : String
deriving DecidableEq

def toUTC (o : Offsets) (dt : AwareDt) : Int := dt.localMin - o dt.tz

/-- `dt + timedelta(minutes=m)`: wall-clock arithmetic keeps the zone. -/
def AwareDt.addMinutes (dt : AwareDt) (m : Int) : AwareDt := ⟨dt.localMin + m, dt.tz⟩

/-- `datetime.combine(d, t).replace(tzinfo=tz)` with `t` given in minutes
from midnight. -/
def combineTz (d : PyDate) (tod : Int) (tz : String) : AwareDt :=
  ⟨(toordinal d : Int) * 1440 + tod, tz⟩

/-- CPython `max(a, b)` on aware datetimes. -/
def pymax (o : Offsets) (a b : AwareDt) : AwareDt :=
  if toUTC o a < toUTC o b then b else a

/-- `dt.hour` of an aware datetime (of its wall clock). -/
def AwareDt.hour (dt : AwareDt) : Int := (dt.localMin.emod 1440).ediv 60

/-- `dt.astimezone(ZoneInfo(tz))`. -/
def astimezone (o : Offsets) (dt : AwareDt) (tz : String) : AwareDt :=
  ⟨toUTC o dt + o tz, tz⟩

/-! ### Data model (availability/models.py is not in the sources; its
row shapes follow the spec's §3, and querysets become lists in `Env`) -/

structure AvailabilityRule where
  day_of_week : Nat
  start_time : Int
  end_time : Int
  event_types : List Nat
  is_active : Bool
deriving DecidableEq

/-- Modelled from the spec: `AvailabilityRule.spans_midnight` —
"`spans_midnight` ⇔ end-time-of-day ≤ start-time-of-day" (§3). -/
def AvailabilityRule.spans_midnight (r : AvailabilityRule) : Bool :=
  r.end_time ≤ r.start_time

/-- Modelled from the spec: `applies_to_event_type` — "empty scope
matches all; otherwise set-membership" (§4.B). -/
def AvailabilityRule.applies_to_event_type (r : AvailabilityRule)
    (et_id : Nat) : Bool :=
  r.event_types.isEmpty || r.event_types.contains et_id

structure EventType where
  id : Nat
  duration : Int
  buffer_time_before : Option Int
  buffer_time_after : Option Int
  slot_interval_minutes : Option Int
  is_group_event : Bool
  max_attendees : Int
deriving DecidableEq

structure DateOverrideRule where
  date : PyDate
  is_available : Bool
  start_time : Option Int
  end_time : Option Int
  event_types : List Nat
  is_active : Bool
deriving DecidableEq

/-- Modelled from the spec: `DateOverrideRule.spans_midnight`, defined
when both times are present (§3). -/
def DateOverrideRule.spans_midnight (r : DateOverrideRule) : Bool :=
  match r.start_time, r.end_time with
  | some s, some e => e ≤ s
  | _, _ => false

/-- Modelled from the spec: `applies_to_event_type` for overrides —
"empty scope matches all; otherwise set-membership" (§4.B). -/
def DateOverrideRule.applies_to_event_type (r : DateOverrideRule)
    (et_id : Nat) : Bool :=
  r.event_types.isEmpty || r.event_types.contains et_id

structure RecurringBlockedTime where
  day_of_week : Nat
  start_time : Int
  end_time : Int
  start_date : Option PyDate
  end_date : Option PyDate
  is_active : Bool
deriving DecidableEq

/-- Modelled from the spec: `RecurringBlockedTime.spans_midnight` (§3). -/
def RecurringBlockedTime.spans_midnight (r : RecurringBlockedTime) : Bool :=
  r.end_time ≤ r.start_time

/-- Modelled from the spec: "`applies_to_date(d)` ⇔ start-date ≤ d ≤
end-date (open bounds treated as ∞)" (§3). -/
def RecurringBlockedTime.applies_to_date (r : RecurringBlockedTime)
    (d : PyDate) : Bool :=
  (match r.start_date with | none => true | some s => dateLe s d) &&
  (match r.end_date with | none => true | some e => dateLe d e)

structure BlockedTime where
  start_datetime : Int
  end_datetime : Int
  is_active : Bool
deriving DecidableEq

structure Booking where
  event_type_id : Nat
  start_time : Int
  end_time : Int
  status : String
  attendee_count : Int
deriving DecidableEq

structure BufferTime where
  default_buffer_before : Int
  default_buffer_after : Int
  minimum_gap : Int
  slot_interval_minutes : Int
deriving DecidableEq

/-- One organizer's database rows and profile settings. -/
structure Env where
  availabilityRules : List AvailabilityRule
  dateOverrides : List DateOverrideRule
  blockedTimes : List BlockedTime
  recurringBlocks : List RecurringBlockedTime
  bookings : List Booking
  bufferTime : BufferTime
  profile_timezone_name : String
  reasonable_hours_start : Int
  reasonable_hours_end : Int

structure InviteeTime where
  start_time : AwareDt
  end_time : AwareDt
  start_hour : Int
  end_hour : Int
  is_reasonable : Bool
deriving DecidableEq

/-- A slot dict produced by the engine (optional keys are added by the
enrichment stages). -/
structure Slot where
  start_time : AwareDt
  end_time : AwareDt
  duration_minutes : Int
  invitee_times : List (String × InviteeTime) := []
  fairness_score : Option ℚ := none
  local_start_time : Option AwareDt := none
  local_end_time : Option AwareDt := none
  is_dst : Option Bool := none
deriving DecidableEq

/-! ### Rule resolver (`_get_daily_available_intervals`, utils.py 247) -/

/-- The active overrides for the date that apply to the event type
(utils.py 257-267). -/
def applicable_overrides (env : Env) (event_type : EventType)
    (target_date : PyDate) : List DateOverrideRule :=
  (env.dateOverrides.filter
      (fun r => r.date == target_date && r.is_active)).filter
    (fun r => r.applies_to_event_type event_type.id)

/-- `datetime.combine` of a date with rule start/end times, `+1 day` on
the end when the rule spans midnight, then `replace(tzinfo=tz)`
(utils.py 274-286 and 306-318). -/
def composeInterval (d : PyDate) (s e : Int) (spans : Bool) (tz : String) :
    AwareDt × AwareDt :=
  (⟨(toordinal d : Int) * 1440 + s, tz⟩,
   ⟨(toordinal d : Int) * 1440 + e + (if spans then 1440 else 0), tz⟩)

/-- The mutate-last-or-append fold of `merge_overlapping_intervals`
(utils.py 572-581), with `cur` the trailing merged interval. -/
def mergeRuns (o : Offsets) : AwareDt × AwareDt → List (AwareDt × AwareDt) →
    List (AwareDt × AwareDt)
  | cur, [] => [cur]
  | cur, x :: xs =>
    if toUTC o x.1 ≤ toUTC o cur.2 then
      mergeRuns o (cur.1, pymax o cur.2 x.2) xs
    else cur :: mergeRuns o x xs

def intervalLe (o : Offsets) (a b : AwareDt × AwareDt) : Bool :=
  decide (toUTC o a.1 ≤ toUTC o b.1)

/-- `merge_overlapping_intervals` (utils.py 563): stable sort by start,
then fold. -/
def merge_overlapping_intervals (o : Offsets)
    (intervals : List (AwareDt × AwareDt)) : List (AwareDt × AwareDt) :=
  match List.mergeSort intervals (intervalLe o) with
  | [] => []
  | x :: xs => mergeRuns o x xs

/-- `_get_daily_available_intervals` (utils.py 247-321). -/
def _get_daily_available_intervals (o : Offsets) (env : Env)
    (event_type : EventType) (target_date : PyDate)
    (organizer_timezone : String) : List (AwareDt × AwareDt) :=
  let applicable := applicable_overrides env event_type target_date
  if applicable.isEmpty then
    let day_of_week := weekday target_date
    let applicable_rules :=
      (env.availabilityRules.filter
          (fun r => r.day_of_week == day_of_week && r.is_active)).filter
        (fun r => r.applies_to_event_type event_type.id)
    merge_overlapping_intervals o (applicable_rules.map
      (fun r => composeInterval target_date r.start_time r.end_time
        r.spans_midnight organizer_timezone))
  else
    applicable.filterMap (fun ov =>
      match ov.start_time, ov.end_time with
      | some s, some e =>
        if ov.is_available then
          some (composeInterval target_date s e ov.spans_midnight
            organizer_timezone)
        else none
      | _, _ => none)

/-! ### Slot enumerator (`_generate_slots_from_interval`, utils.py 324) -/

/-- The `while current + duration ≤ interval_end` loop, with explicit
fuel (sufficient whenever `slot_interval ≥ 1`). -/
def genSlotsAux (e : AwareDt) (dur ivl : Int) (o : Offsets) :
    Nat → AwareDt → List Slot
  | 0, _ => []
  | fuel + 1, cur =>
    if toUTC o (cur.addMinutes dur) ≤ toUTC o e then
      { start_time := cur, end_time := cur.addMinutes dur,
        duration_minutes := dur } ::
        genSlotsAux e dur ivl o fuel (cur.addMinutes ivl)
    else []

/-- `_generate_slots_from_interval` (utils.py 324-345). -/
def _generate_slots_from_interval (o : Offsets)
    (interval_start interval_end : AwareDt)
    (duration_minutes slot_interval_minutes : Int) : List Slot :=
  genSlotsAux interval_end duration_minutes slot_interval_minutes o
    (toUTC o interval_end - toUTC o interval_start - duration_minutes + 1).toNat
    interval_start

/-! ### Block filter (utils.py 348-410, 798-848) -/

/-- `is_slot_blocked_by_one_time` (utils.py 356). -/
def is_slot_blocked_by_one_time (o : Offsets) (env : Env) (slot : Slot) : Bool :=
  env.blockedTimes.any (fun b =>
    b.is_active && decide (b.start_datetime < toUTC o slot.end_time)
      && decide (b.end_datetime > toUTC o slot.start_time))

/-- `is_slot_blocked_by_recurring` (utils.py 373): the composed block
times inherit the slot's zone. -/
def is_slot_blocked_by_recurring (o : Offsets) (env : Env) (slot : Slot)
    (target_date : PyDate) : Bool :=
  let day_of_week := weekday target_date
  (env.recurringBlocks.filter
      (fun b => b.day_of_week == day_of_week && b.is_active)).any
    (fun block =>
      if block.applies_to_date target_date then
        let block_start := combineTz target_date block.start_time
          slot.start_time.tz
        let block_end : AwareDt :=
          ⟨(toordinal target_date : Int) * 1440 + block.end_time
            + (if block.spans_midnight then 1440 else 0), slot.start_time.tz⟩
        decide (toUTC o block_start < toUTC o slot.end_time)
          && decide (toUTC o block_end > toUTC o slot.start_time)
      else false)

/-- `is_slot_blocked` (utils.py 348-353). -/
def is_slot_blocked (o : Offsets) (env : Env) (slot : Slot)
    (target_date : PyDate) : Bool :=
  is_slot_blocked_by_one_time o env slot
    || is_slot_blocked_by_recurring o env slot target_date

/-- `is_slot_blocked_by_override` (utils.py 798-848) — defined in the
source but never invoked by the pipeline. -/
def is_slot_blocked_by_override (o : Offsets) (env : Env)
    (event_type : EventType) (slot : Slot) (target_date : PyDate) : Bool :=
  let applicable := applicable_overrides env event_type target_date
  if applicable.isEmpty then false
  else
    applicable.any (fun ov =>
      if ov.is_available then
        match ov.start_time, ov.end_time with
        | some s, some e =>
          let override_start := combineTz target_date s slot.start_time.tz
          let override_end : AwareDt :=
            ⟨(toordinal target_date : Int) * 1440 + e
              + (if ov.spans_midnight then 1440 else 0), slot.start_time.tz⟩
          !(decide (toUTC o override_start ≤ toUTC o slot.start_time)
            && decide (toUTC o slot.end_time ≤ toUTC o override_end))
        | _, _ => false
      else true)

/-! ### Booking conflict filter (`is_slot_conflicting_with_bookings`,
utils.py 413-470) -/

def is_slot_conflicting_with_bookings (o : Offsets) (env : Env)
    (event_type : EventType) (slot : Slot)
    (attendee_count buffer_before buffer_after minimum_gap : Int) : Bool :=
  let slot_start := toUTC o slot.start_time
  let slot_end := toUTC o slot.end_time
  let protected_start := slot_start - buffer_before
  let protected_end := slot_end + buffer_after
  let existing_bookings := env.bookings.filter (fun b =>
    b.status == "confirmed" && decide (b.start_time < protected_end)
      && decide (b.end_time > protected_start))
  existing_bookings.any (fun booking =>
    let booking_protected_start := booking.start_time - minimum_gap
    let booking_protected_end := booking.end_time + minimum_gap
    if booking_protected_start < protected_end
        ∧ booking_protected_end > protected_start then
      if event_type.is_group_event && booking.event_type_id == event_type.id then
        let overlapping_bookings := env.bookings.filter (fun b =>
          b.event_type_id == event_type.id && b.status == "confirmed"
            && decide (b.start_time < slot_end)
            && decide (b.end_time > slot_start))
        let total_confirmed_attendees :=
          (overlapping_bookings.map (·.attendee_count)).sum
        decide (total_confirmed_attendees + attendee_count
          > event_type.max_attendees)
      else true
    else false)

/-! ### Per-day pipeline (`_calculate_daily_slots`, utils.py 205-244) -/

def _calculate_daily_slots (o : Offsets) (env : Env) (event_type : EventType)
    (target_date : PyDate) (organizer_timezone : String)
    (attendee_count buffer_before buffer_after minimum_gap slot_interval : Int) :
    List Slot :=
  let available_intervals :=
    _get_daily_available_intervals o env event_type target_date
      organizer_timezone
  if available_intervals.isEmpty then []
  else
    let potential_slots := available_intervals.flatMap (fun iv =>
      _generate_slots_from_interval o iv.1 iv.2 event_type.duration
        slot_interval)
    potential_slots.filter (fun slot =>
      !is_slot_blocked o env slot target_date
        && !is_slot_conflicting_with_bookings o env event_type slot
            attendee_count buffer_before buffer_after minimum_gap)

/-! ### Multi-invitee intersector and DST enrichment
(utils.py 473-560) -/

/-- The per-slot enrichment loop body of
`calculate_multi_invitee_intersection` (utils.py 486-525):
`invitee_times` map plus fairness score `reasonable_count / n`. -/
def enhanceForInvitees (o : Offsets) (reasonable_start reasonable_end : Int)
    (invitee_timezones : List String) (slot : Slot) : Slot :=
  let entries := invitee_timezones.map (fun tz =>
    let local_start := astimezone o slot.start_time tz
    let local_end := astimezone o slot.end_time tz
    (tz, { start_time := local_start, end_time := local_end,
           start_hour := local_start.hour, end_hour := local_end.hour,
           is_reasonable := decide (reasonable_start ≤ local_start.hour)
             && decide (local_start.hour ≤ reasonable_end) : InviteeTime }))
  let reasonable_count := (entries.filter (fun p => p.2.is_reasonable)).length
  let fairness_score : ℚ :=
    if invitee_timezones.isEmpty then 1
    else (reasonable_count : ℚ) / (invitee_timezones.length : ℚ)
  { slot with invitee_times := entries, fairness_score := some fairness_score }

/-- `enhanced_slots.sort(key=lambda x: x.get('fairness_score', 0),
reverse=True)`: the comparison of the stable descending sort. -/
def multiInviteeLe (a b : Slot) : Bool :=
  decide ((b.fairness_score.getD 0) ≤ (a.fairness_score.getD 0))

/-- `calculate_multi_invitee_intersection` (utils.py 473-530). -/
def calculate_multi_invitee_intersection (o : Offsets) (slots : List Slot)
    (invitee_timezones : List String) (env : Env) : List Slot :=
  let enhanced_slots := slots.map (enhanceForInvitees o
    env.reasonable_hours_start env.reasonable_hours_end invitee_timezones)
  List.mergeSort enhanced_slots multiInviteeLe

/-- `enhance_slots_with_dst_info` (utils.py 533-560); `dstO` is the
tz-database oracle for `dt.dst()`. -/
def enhance_slots_with_dst_info (o : Offsets) (dstO : String → Int → Bool)
    (slots : List Slot) (invitee_timezone : String) : List Slot :=
  slots.map (fun slot =>
    let local_start := astimezone o slot.start_time invitee_timezone
    let local_end := astimezone o slot.end_time invitee_timezone
    { slot with
      local_start_time := some local_start,
      local_end_time := some local_end,
      is_dst := some (dstO invitee_timezone local_start.localMin) })

/-! ### Query orchestrator (`calculate_available_slots`, utils.py 91-202) -/

/-- `validate_timezone` (utils.py 15): empty strings are invalid, other
names resolve through the IANA oracle `V`. -/
def validate_timezone (V : String → Bool) (tz_string : String) : Bool :=
  if tz_string = "" then false else V tz_string

/-- Invitee-timezone validation (utils.py 121-123): warnings produced
and the value used afterwards. -/
def invitee_tz_resolution (V : String → Bool) (invitee_timezone : String) :
    List String × String :=
  if validate_timezone V invitee_timezone then ([], invitee_timezone)
  else (["Invalid invitee timezone: " ++ invitee_timezone], "UTC")

/-- Multi-invitee timezone validation (utils.py 126-133). -/
def invitee_tzs_resolution (V : String → Bool) (tzs : List String) :
    List String × List String :=
  (tzs.filterMap (fun tz =>
      if validate_timezone V tz then none
      else some ("Invalid timezone in list: " ++ tz)),
   tzs.filter (fun tz => validate_timezone V tz))

/-- Organizer-timezone resolution (utils.py 137-140). -/
def organizer_tz_resolution (V : String → Bool) (env : Env) :
    List String × String :=
  if validate_timezone V env.profile_timezone_name then
    ([], env.profile_timezone_name)
  else (["Invalid organizer timezone, using UTC"], "UTC")

/-- Python `x or default` on an optional int field: `None` and `0` are
both falsy (utils.py 147-150). -/
def effective_or (ov : Option Int) (dflt : Int) : Int :=
  match ov with
  | some v => if v = 0 then dflt else v
  | none => dflt

/-- The `while current_date ≤ end_date` day loop (utils.py 156-170),
with explicit fuel (`toordinal end + 1 - toordinal start` suffices since
each day strictly increases the ordinal). -/
def calcDaysAux (o : Offsets) (env : Env) (event_type : EventType)
    (organizer_timezone : String)
    (attendee_count buffer_before buffer_after minimum_gap slot_interval : Int)
    (end_date : PyDate) : Nat → PyDate → List Slot
  | 0, _ => []
  | fuel + 1, current_date =>
    if dateLe current_date end_date then
      _calculate_daily_slots o env event_type current_date organizer_timezone
        attendee_count buffer_before buffer_after minimum_gap slot_interval
        ++ calcDaysAux o env event_type organizer_timezone attendee_count
          buffer_before buffer_after minimum_gap slot_interval end_date fuel
          (nextDay current_date)
    else []

/-- `all_slots` accumulated over the date range, before any
multi-invitee sorting (utils.py 153-170). -/
def all_slots_for_range (o : Offsets) (env : Env) (event_type : EventType)
    (start_date end_date : PyDate) (organizer_timezone : String)
    (attendee_count buffer_before buffer_after minimum_gap slot_interval : Int) :
    List Slot :=
  calcDaysAux o env event_type organizer_timezone attendee_count
    buffer_before buffer_after minimum_gap slot_interval end_date
    (toordinal end_date + 1 - toordinal start_date) start_date

structure PerformanceMetrics where
  duration : Int
  total_slots_calculated : Nat
  date_range_days : Int
deriving DecidableEq

structure CalcResult where
  slots : List Slot
  warnings : List String
  performance_metrics : PerformanceMetrics
deriving DecidableEq

/-- `calculate_available_slots` (utils.py 91-202).  `duration` in the
metrics is wall-clock time, modeled as `0`. -/
def calculate_available_slots (o : Offsets) (dstO : String → Int → Bool)
    (V : String → Bool) (env : Env) (event_type : EventType)
    (start_date end_date : PyDate) (invitee_timezone : String)
    (attendee_count : Int) (invitee_timezones : List String) : CalcResult :=
  let r1 := invitee_tz_resolution V invitee_timezone
  let r2 := invitee_tzs_resolution V invitee_timezones
  let r3 := organizer_tz_resolution V env
  let warnings := r1.1 ++ r2.1 ++ r3.1
  let buffer_settings := env.bufferTime
  let buffer_before := effective_or event_type.buffer_time_before
    buffer_settings.default_buffer_before
  let buffer_after := effective_or event_type.buffer_time_after
    buffer_settings.default_buffer_after
  let minimum_gap := buffer_settings.minimum_gap
  let slot_interval := effective_or event_type.slot_interval_minutes
    buffer_settings.slot_interval_minutes
  let all_slots := all_slots_for_range o env event_type start_date end_date
    r3.2 attendee_count buffer_before buffer_after minimum_gap slot_interval
  let all_slots :=
    if r2.2.length > 1 then
      calculate_multi_invitee_intersection o all_slots r2.2 env
    else all_slots
  let enhanced_slots := enhance_slots_with_dst_info o dstO all_slots r1.2
  { slots := enhanced_slots,
    warnings := warnings,
    performance_metrics :=
      { duration := 0,
        total_slots_calculated := enhanced_slots.length,
        date_range_days := dateSubDays end_date start_date + 1 } }

/-! ### Cache key and dirty-set protocol (utils.py 644-721) -/

/-- CPython `':'.join(parts)` at the character level. -/
def joinColon : List (List Char) → List Char
  | [] => []
  | [p] => p
  | p :: ps => p ++ ':' :: joinColon ps

/-- `get_cache_key_for_availability` (utils.py 644-662):
`':'.join(['availability', organizer_id, event_type_id,
start.isoformat(), end.isoformat(), tz, str(attendee_count)])`. -/
def get_cache_key_for_availability (organizer_id event_type_id : String)
    (start_date end_date : PyDate) (invitee_timezone : String)
    (attendee_count : Nat) : String :=
  ⟨joinColon ["availability".data, organizer_id.data, event_type_id.data,
    (isoformat start_date).data, (isoformat end_date).data,
    invitee_timezone.data, natChars attendee_count]⟩

structure ChangeRecord where
  cache_type : String
  timestamp : String
  extras : List (String × String)
deriving DecidableEq

structure DirtyData where
  organizer_id : String
  requires_full_invalidation : Bool
  changes : List ChangeRecord
deriving DecidableEq

/-- The Django cache contents touched by the dirty-set protocol (TTL
expiry is wall-clock behavior and is not modeled). -/
structure CacheState where
  dirty : String → Option DirtyData
  dirty_list : List String

def dirtyCacheKey (organizer_id : String) : String :=
  "dirty_cache:" ++ organizer_id

/-- `mark_cache_dirty` (utils.py 665-701). -/
def mark_cache_dirty (s : CacheState) (organizer_id cache_type : String)
    (requires_full_invalidation : Bool) (timestamp : String)
    (extras : List (String × String)) : CacheState :=
  let dirty_key := dirtyCacheKey organizer_id
  let dirty_data := (s.dirty dirty_key).getD
    ⟨organizer_id, false, []⟩
  let dirty_data :=
    if requires_full_invalidation then
      { dirty_data with requires_full_invalidation := true }
    else dirty_data
  let dirty_data :=
    { dirty_data with
      changes := dirty_data.changes ++ [⟨cache_type, timestamp, extras⟩] }
  { dirty := fun k => if k = dirty_key then some dirty_data else s.dirty k,
    dirty_list :=
      if organizer_id ∈ s.dirty_list then s.dirty_list
      else s.dirty_list ++ [organizer_id] }

/-- `clear_dirty_flags` (utils.py 711-721). -/
def clear_dirty_flags (s : CacheState) (organizer_id : String) : CacheState :=
  { dirty := fun k =>
      if k = dirtyCacheKey organizer_id then none else s.dirty k,
    dirty_list := s.dirty_list.filter (fun x => x ≠ organizer_id) }

inductive CacheOp where
  | mark (organizer_id cache_type : String)
      (requires_full_invalidation : Bool) (timestamp : String)
      (extras : List (String × String))
  | clear (organizer_id : String)
deriving DecidableEq

def runCacheOp (s : CacheState) : CacheOp → CacheState
  | .mark org ct rfi ts ex => mark_cache_dirty s org ct rfi ts ex
  | .clear org => clear_dirty_flags s org

/-! ## Claim theorems -/

/-! ### C3 — malformed endpoints of `are_time_intervals_overlapping` -/

/-- C3 (corrected): the interval-overlap check fails safe to `false`
only when an endpoint string is empty (Python falsiness); any other
malformed endpoint is parsed as 0 minutes by `_time_to_minutes` and the
comparison proceeds. -/
theorem c3_empty_endpoint_false (start1 end1 start2 end2 : String)
    (allow_adjacency : Bool)
    (h : start1 = "" ∨ end1 = "" ∨ start2 = "" ∨ end2 = "") :
    are_time_intervals_overlapping start1 end1 start2 end2 allow_adjacency
      = false := by
  unfold are_time_intervals_overlapping
  rw [if_pos h]

theorem c3_empty_endpoint_false_witness :
    (("" : String) = "" ∨ ("10:00:00" : String) = ""
      ∨ ("09:00:00" : String) = "" ∨ ("09:30:00" : String) = "")
    ∧ are_time_intervals_overlapping "" "10:00:00" "09:00:00" "09:30:00" false
        = false :=
  ⟨Or.inl rfl,
   c3_empty_endpoint_false "" "10:00:00" "09:00:00" "09:30:00" false
     (Or.inl rfl)⟩

/-- C3 (counterexample): a non-empty malformed endpoint (`"xx:yy:zz"`)
does not make the check return `false`; it is read as `00:00` and the
check reports an overlap. -/
theorem c3_counterexample :
    are_time_intervals_overlapping "xx:yy:zz" "10:00:00" "09:00:00" "09:30:00"
        false = true
    ∧ ("xx:yy:zz" : String) ≠ "" := by
  exact ⟨by decide, by decide⟩

/-! ### C6 — midnight-span normalization threshold -/

/-- C6 (amended): on well-formed `HH:MM:SS` endpoints the check equals
the minute-level overlap whose end is bumped by 1440 exactly when end
`<` start strictly; an interval whose end equals its start is left
empty, not treated as a full day. -/
theorem c6_strict_normalization (a b c d : Nat) (adj : Bool)
    (ha : a < 1440) (hb : b < 1440) (hc : c < 1440) (hd : d < 1440) :
    are_time_intervals_overlapping (todStr a) (todStr b) (todStr c) (todStr d)
        adj
      = overlap_minutes_strict_norm (a : Int) (b : Int) (c : Int) (d : Int)
          adj := by
  unfold are_time_intervals_overlapping
  rw [if_neg]
  · simp only [time_to_minutes_todStr]
    rfl
  · rintro (h | h | h | h) <;> exact todStr_ne_empty _ h

theorem c6_strict_normalization_witness :
    600 < 1440
    ∧ are_time_intervals_overlapping (todStr 600) (todStr 600) (todStr 660)
        (todStr 720) false
      = overlap_minutes_strict_norm 600 600 660 720 false :=
  ⟨by decide,
   c6_strict_normalization 600 600 660 720 false (by decide) (by decide)
     (by decide) (by decide)⟩

/-- C6 (counterexample): for the interval `10:00:00 → 10:00:00` (end
equal to start) the code reports no overlap with `11:00:00 → 12:00:00`,
while the claim's `≤`-normalization (full-day interval) would. -/
theorem c6_counterexample :
    are_time_intervals_overlapping "10:00:00" "10:00:00" "11:00:00" "12:00:00"
        false = false
    ∧ overlap_minutes_le_norm 600 600 660 720 false = true := by
  exact ⟨by decide, by decide⟩

/-! ### C7 — cache key determinism and injectivity -/

theorem colon_join_inj_step : ∀ (a b r s : List Char), ':' ∉ a → ':' ∉ b →
    a ++ ':' :: r = b ++ ':' :: s → a = b ∧ r = s := by
  intro a
  induction a with
  | nil =>
    intro b r s _ hb h
    cases b with
    | nil => simpa using h
    | cons c t =>
      rw [List.nil_append, List.cons_append, List.cons_eq_cons] at h
      obtain ⟨h1, -⟩ := h
      subst h1
      exact absurd (List.mem_cons_self _ _) hb
  | cons c t ih =>
    intro b r s ha hb h
    cases b with
    | nil =>
      rw [List.cons_append, List.nil_append, List.cons_eq_cons] at h
      obtain ⟨h1, -⟩ := h
      subst h1
      exact absurd (List.mem_cons_self _ _) ha
    | cons c2 t2 =>
      rw [List.cons_append, List.cons_append, List.cons_eq_cons] at h
      obtain ⟨h1, h2⟩ := h
      subst h1
      have ht : ':' ∉ t := fun hx => ha (List.mem_cons_of_mem _ hx)
      have ht2 : ':' ∉ t2 := fun hx => hb (List.mem_cons_of_mem _ hx)
      obtain ⟨e1, e2⟩ := ih t2 r s ht ht2 h2
      exact ⟨by rw [e1], e2⟩

theorem string_eq_of_data (a b : String) (h : a.data = b.data) : a = b := by
  cases a; cases b; simp_all

theorem natChars_no_colon (n : Nat) : ':' ∉ natChars n := by
  intro h
  exact absurd (natChars_digits n ':' h) (by decide)

/-- C7 (amended): the cache key is deterministic, and it is injective
whenever the organizer id, event-type id, and invitee timezone contain
no `':'` (the joined fields themselves can smuggle separators
otherwise). -/
theorem c7_cache_key_inj (o1 e1 : String) (s1 d1 : PyDate) (tz1 : String)
    (c1 : Nat) (o2 e2 : String) (s2 d2 : PyDate) (tz2 : String) (c2 : Nat)
    (ho1 : ':' ∉ o1.data) (ho2 : ':' ∉ o2.data)
    (he1 : ':' ∉ e1.data) (he2 : ':' ∉ e2.data)
    (ht1 : ':' ∉ tz1.data) (ht2 : ':' ∉ tz2.data)
    (h : get_cache_key_for_availability o1 e1 s1 d1 tz1 c1
      = get_cache_key_for_availability o2 e2 s2 d2 tz2 c2) :
    o1 = o2 ∧ e1 = e2 ∧ s1 = s2 ∧ d1 = d2 ∧ tz1 = tz2 ∧ c1 = c2 := by
  have hd :
      joinColon ["availability".data, o1.data, e1.data, (isoformat s1).data,
        (isoformat d1).data, tz1.data, natChars c1]
      = joinColon ["availability".data, o2.data, e2.data, (isoformat s2).data,
        (isoformat d2).data, tz2.data, natChars c2] :=
    congrArg String.data h
  simp only [joinColon] at hd
  obtain ⟨-, hd⟩ := colon_join_inj_step _ _ _ _ (by decide) (by decide) hd
  obtain ⟨ho, hd⟩ := colon_join_inj_step _ _ _ _ ho1 ho2 hd
  obtain ⟨hev, hd⟩ := colon_join_inj_step _ _ _ _ he1 he2 hd
  obtain ⟨hs, hd⟩ := colon_join_inj_step _ _ _ _ (isoformat_no_colon s1)
    (isoformat_no_colon s2) hd
  obtain ⟨hdt, hd⟩ := colon_join_inj_step _ _ _ _ (isoformat_no_colon d1)
    (isoformat_no_colon d2) hd
  obtain ⟨htz, hcnt⟩ := colon_join_inj_step _ _ _ _ ht1 ht2 hd
  refine ⟨string_eq_of_data _ _ ho, string_eq_of_data _ _ hev, ?_, ?_,
    string_eq_of_data _ _ htz, ?_⟩
  · exact isoformat_inj s1 s2 (string_eq_of_data _ _ hs)
  · exact isoformat_inj d1 d2 (string_eq_of_data _ _ hdt)
  · have := congrArg strVal hcnt
    rwa [strVal_natChars, strVal_natChars] at this

theorem c7_cache_key_inj_witness :
    (':' ∉ ("org1" : String).data) ∧ (':' ∉ ("et1" : String).data)
    ∧ (':' ∉ ("UTC" : String).data)
    ∧ (("org1" : String) = "org1" ∧ ("et1" : String) = "et1"
        ∧ (⟨2025, 1, 6, by decide, by decide, by decide, by decide,
            by decide⟩ : PyDate)
          = ⟨2025, 1, 6, by decide, by decide, by decide, by decide, by decide⟩
        ∧ (⟨2025, 1, 7, by decide, by decide, by decide, by decide,
            by decide⟩ : PyDate)
          = ⟨2025, 1, 7, by decide, by decide, by decide, by decide, by decide⟩
        ∧ ("UTC" : String) = "UTC" ∧ (1 : Nat) = 1) :=
  ⟨by decide, by decide, by decide,
   c7_cache_key_inj "org1" "et1" _ _ "UTC" 1 "org1" "et1" _ _ "UTC" 1
     (by decide) (by decide) (by decide) (by decide) (by decide) (by decide)
     rfl⟩

/-- C7 (counterexample): two different input tuples (a `':'` moved
between organizer id and event-type id) yield byte-identical keys, so
the key function is not injective as claimed. -/
theorem c7_counterexample :
    get_cache_key_for_availability "a:b" "c"
        ⟨2025, 1, 6, by decide, by decide, by decide, by decide, by decide⟩
        ⟨2025, 1, 7, by decide, by decide, by decide, by decide, by decide⟩
        "UTC" 1
      = get_cache_key_for_availability "a" "b:c"
        ⟨2025, 1, 6, by decide, by decide, by decide, by decide, by decide⟩
        ⟨2025, 1, 7, by decide, by decide, by decide, by decide, by decide⟩
        "UTC" 1
    ∧ ("a:b" : String) ≠ "a" := by
  exact ⟨by decide, by decide⟩

/-! ### C1 — `is_slot_blocked` has no date-override disjunct -/

/-- C1 (amended): `is_slot_blocked` never reads the date overrides (its
value is invariant under replacing them), and it is true exactly when
the one-time-block or the recurring-block condition holds; the
date-override exclusion lives only in the separate, un-invoked
`is_slot_blocked_by_override`. -/
theorem c1_block_filter_characterization (o : Offsets) (env : Env)
    (ovs : List DateOverrideRule) (slot : Slot) (target_date : PyDate) :
    is_slot_blocked o { env with dateOverrides := ovs } slot target_date
      = is_slot_blocked o env slot target_date
    ∧ (is_slot_blocked o env slot target_date = true ↔
        (∃ b ∈ env.blockedTimes, b.is_active = true
          ∧ b.start_datetime < toUTC o slot.end_time
          ∧ b.end_datetime > toUTC o slot.start_time)
        ∨ (∃ r ∈ env.recurringBlocks, r.day_of_week = weekday target_date
            ∧ r.is_active = true
            ∧ r.applies_to_date target_date = true
            ∧ toUTC o (combineTz target_date r.start_time slot.start_time.tz)
                < toUTC o slot.end_time
            ∧ toUTC o (⟨(toordinal target_date : Int) * 1440 + r.end_time
                  + (if r.spans_midnight then 1440 else 0),
                  slot.start_time.tz⟩ : AwareDt)
                > toUTC o slot.start_time)) := by
  constructor
  · rfl
  · unfold is_slot_blocked is_slot_blocked_by_one_time
      is_slot_blocked_by_recurring
    constructor
    · intro hblocked
      rw [Bool.or_eq_true] at hblocked
      rcases hblocked with h1 | h2
      · left
        rw [List.any_eq_true] at h1
        obtain ⟨b, hb, hcond⟩ := h1
        simp only [Bool.and_eq_true, decide_eq_true_eq] at hcond
        exact ⟨b, hb, hcond.1.1, hcond.1.2, hcond.2⟩
      · right
        rw [List.any_eq_true] at h2
        obtain ⟨r, hr, hcond⟩ := h2
        rw [List.mem_filter] at hr
        simp only [Bool.and_eq_true, beq_iff_eq] at hr
        by_cases hap : r.applies_to_date target_date = true
        · rw [if_pos hap] at hcond
          simp only [Bool.and_eq_true, decide_eq_true_eq] at hcond
          exact ⟨r, hr.1, hr.2.1, hr.2.2, hap, hcond.1, hcond.2⟩
        · rw [if_neg hap] at hcond
          exact absurd hcond (by simp)
    · rintro (⟨b, hb, h1, h2, h3⟩ | ⟨r, hr, hdow, hact, hap, h1, h2⟩)
      · rw [Bool.or_eq_true]
        left
        rw [List.any_eq_true]
        exact ⟨b, hb, by simp [h1, h2, h3]⟩
      · rw [Bool.or_eq_true]
        right
        rw [List.any_eq_true]
        refine ⟨r, List.mem_filter.mpr ⟨hr, by simp [hdow, hact]⟩, ?_⟩
        rw [if_pos hap]
        simp only [Bool.and_eq_true, decide_eq_true_eq]
        exact ⟨h1, h2⟩

/-- C1 (counterexample): with an applicable active `is_available=false`
override for the date (and nothing else), the date-override exclusion
holds — `is_slot_blocked_by_override` is true — yet `is_slot_blocked`
returns false, so the exclusion is not one of its disjuncts. -/
theorem c1_counterexample :
    (is_slot_blocked_by_override (fun _ => 0)
        ⟨[], [⟨⟨2025, 1, 6, by decide, by decide, by decide, by decide,
            by decide⟩, false, none, none, [], true⟩],
          [], [], [], ⟨0, 0, 0, 30⟩, "UTC", 9, 18⟩
        ⟨1, 30, none, none, none, false, 0⟩
        ⟨⟨739257 * 1440 + 540, "UTC"⟩, ⟨739257 * 1440 + 570, "UTC"⟩, 30,
          [], none, none, none, none⟩
        ⟨2025, 1, 6, by decide, by decide, by decide, by decide, by decide⟩
      = true)
    ∧ (is_slot_blocked (fun _ => 0)
        ⟨[], [⟨⟨2025, 1, 6, by decide, by decide, by decide, by decide,
            by decide⟩, false, none, none, [], true⟩],
          [], [], [], ⟨0, 0, 0, 30⟩, "UTC", 9, 18⟩
        ⟨⟨739257 * 1440 + 540, "UTC"⟩, ⟨739257 * 1440 + 570, "UTC"⟩, 30,
          [], none, none, none, none⟩
        ⟨2025, 1, 6, by decide, by decide, by decide, by decide, by decide⟩
      = false) := by
  exact ⟨by decide, by decide⟩

/-! ### C2 — date overrides short-circuit recurring rules -/

/-- C2 (confirmed): when at least one applicable active override exists
for the date, `_get_daily_available_intervals` is independent of the
`AvailabilityRule` rows — replacing them by any other list leaves the
output unchanged. -/
theorem c2_override_precedence (o : Offsets) (env : Env)
    (event_type : EventType) (target_date : PyDate) (tz : String)
    (rules1 rules2 : List AvailabilityRule)
    (h : applicable_overrides env event_type target_date ≠ []) :
    _get_daily_available_intervals o { env with availabilityRules := rules1 }
        event_type target_date tz
      = _get_daily_available_intervals o { env with availabilityRules := rules2 }
        event_type target_date tz := by
  have hne : (applicable_overrides env event_type target_date).isEmpty
      = false := by
    cases hE : applicable_overrides env event_type target_date with
    | nil => exact absurd hE h
    | cons x xs => rfl
  have ha1 : applicable_overrides { env with availabilityRules := rules1 }
      event_type target_date = applicable_overrides env event_type target_date
    := rfl
  have ha2 : applicable_overrides { env with availabilityRules := rules2 }
      event_type target_date = applicable_overrides env event_type target_date
    := rfl
  unfold _get_daily_available_intervals
  simp only [ha1, ha2, hne]
  rfl

theorem c2_override_precedence_witness :
    (applicable_overrides
        ⟨[], [⟨⟨2025, 1, 6, by decide, by decide, by decide, by decide,
            by decide⟩, true, some 780, some 840, [], true⟩],
          [], [], [], ⟨0, 0, 0, 30⟩, "UTC", 9, 18⟩
        ⟨1, 30, none, none, none, false, 0⟩
        ⟨2025, 1, 6, by decide, by decide, by decide, by decide, by decide⟩
      ≠ [])
    ∧ (_get_daily_available_intervals (fun _ => 0)
        { (⟨[], [⟨⟨2025, 1, 6, by decide, by decide, by decide, by decide,
              by decide⟩, true, some 780, some 840, [], true⟩],
            [], [], [], ⟨0, 0, 0, 30⟩, "UTC", 9, 18⟩ : Env) with
          availabilityRules := [⟨0, 540, 600, [], true⟩] }
        ⟨1, 30, none, none, none, false, 0⟩
        ⟨2025, 1, 6, by decide, by decide, by decide, by decide, by decide⟩
        "UTC"
      = _get_daily_available_intervals (fun _ => 0)
        { (⟨[], [⟨⟨2025, 1, 6, by decide, by decide, by decide, by decide,
              by decide⟩, true, some 780, some 840, [], true⟩],
            [], [], [], ⟨0, 0, 0, 30⟩, "UTC", 9, 18⟩ : Env) with
          availabilityRules := [] }
        ⟨1, 30, none, none, none, false, 0⟩
        ⟨2025, 1, 6, by decide, by decide, by decide, by decide, by decide⟩
        "UTC") :=
  ⟨by decide,
   c2_override_precedence (fun _ => 0) _ _ _ "UTC"
     [⟨0, 540, 600, [], true⟩] [] (by decide)⟩

/-! ### C4 — group capacity boundary -/

/-- C4 (confirmed): for a group event whose confirmed bookings all share
its event type, with some confirmed booking intersecting the buffered
candidate zone, the filter conflicts exactly when the attendee sum over
confirmed same-type bookings overlapping the raw slot plus the request
strictly exceeds `max_attendees`; equality is not a conflict. -/
theorem c4_group_capacity (o : Offsets) (env : Env) (event_type : EventType)
    (slot : Slot) (attendee_count buffer_before buffer_after minimum_gap : Int)
    (hgroup : event_type.is_group_event = true)
    (hsame : ∀ b ∈ env.bookings, b.event_type_id = event_type.id)
    (hgap : 0 ≤ minimum_gap)
    (hex : ∃ b ∈ env.bookings, b.status = "confirmed"
      ∧ b.start_time < toUTC o slot.end_time + buffer_after
      ∧ b.end_time > toUTC o slot.start_time - buffer_before) :
    is_slot_conflicting_with_bookings o env event_type slot attendee_count
        buffer_before buffer_after minimum_gap = true
      ↔ ((env.bookings.filter (fun b =>
            b.event_type_id == event_type.id && b.status == "confirmed"
              && decide (b.start_time < toUTC o slot.end_time)
              && decide (b.end_time > toUTC o slot.start_time))).map
          (·.attendee_count)).sum + attendee_count
        > event_type.max_attendees := by
  simp only [is_slot_conflicting_with_bookings]
  rw [List.any_eq_true]
  constructor
  · rintro ⟨booking, hmem0, hbody⟩
    have hmem : booking ∈ env.bookings := (List.mem_filter.mp hmem0).1
    have hcond2 : (event_type.is_group_event
        && (booking.event_type_id == event_type.id)) = true := by
      rw [hgroup, Bool.true_and]
      exact beq_iff_eq.mpr (hsame booking hmem)
    by_cases houter : booking.start_time - minimum_gap
        < toUTC o slot.end_time + buffer_after
        ∧ booking.end_time + minimum_gap
          > toUTC o slot.start_time - buffer_before
    · rw [if_pos houter, if_pos hcond2] at hbody
      exact of_decide_eq_true hbody
    · rw [if_neg houter] at hbody
      exact absurd hbody Bool.false_ne_true
  · intro hsum
    obtain ⟨b, hmem, hconf, h1, h2⟩ := hex
    refine ⟨b, List.mem_filter.mpr ⟨hmem, ?_⟩, ?_⟩
    · simp only [Bool.and_eq_true, beq_iff_eq, decide_eq_true_eq]
      exact ⟨⟨hconf, h1⟩, h2⟩
    · have houter : b.start_time - minimum_gap
          < toUTC o slot.end_time + buffer_after
          ∧ b.end_time + minimum_gap
            > toUTC o slot.start_time - buffer_before := by
        constructor <;> omega
      rw [if_pos houter]
      have hcond2 : (event_type.is_group_event
          && (b.event_type_id == event_type.id)) = true := by
        rw [hgroup, Bool.true_and]
        exact beq_iff_eq.mpr (hsame b hmem)
      rw [if_pos hcond2]
      exact decide_eq_true hsum

theorem c4_group_capacity_witness :
    is_slot_conflicting_with_bookings (fun _ => 0)
        ⟨[], [], [], [],
          [⟨1, 739257 * 1440 + 540, 739257 * 1440 + 570, "confirmed", 2⟩],
          ⟨0, 0, 0, 30⟩, "UTC", 9, 18⟩
        ⟨1, 30, none, none, none, true, 3⟩
        ⟨⟨739257 * 1440 + 540, "UTC"⟩, ⟨739257 * 1440 + 570, "UTC"⟩, 30,
          [], none, none, none, none⟩
        2 0 0 0 = true :=
  (c4_group_capacity (fun _ => 0) _ _ _ 2 0 0 0 (by decide) (by decide)
    (by decide) (by decide)).mpr (by decide)

/-! ### C9 — capacity monotonicity -/

/-- C9 (confirmed): the conflict filter is antitone in `max_attendees`
(a slot conflicting at a larger capacity — same id and group flag —
also conflicts at a smaller one, so raising capacity never removes
slots) and monotone in the requested `attendee_count` (a conflict
persists when the request grows, so raising the request never adds
slots). -/
theorem c9_capacity_monotone (o : Offsets) (env : Env)
    (et1 et2 : EventType) (slot : Slot)
    (attendee_count buffer_before buffer_after minimum_gap cnt2 : Int) :
    (et2.id = et1.id → et2.is_group_event = et1.is_group_event →
      et1.max_attendees ≤ et2.max_attendees →
      is_slot_conflicting_with_bookings o env et2 slot attendee_count
          buffer_before buffer_after minimum_gap = true →
      is_slot_conflicting_with_bookings o env et1 slot attendee_count
          buffer_before buffer_after minimum_gap = true)
    ∧ (attendee_count ≤ cnt2 →
      is_slot_conflicting_with_bookings o env et1 slot attendee_count
          buffer_before buffer_after minimum_gap = true →
      is_slot_conflicting_with_bookings o env et1 slot cnt2
          buffer_before buffer_after minimum_gap = true) := by
  constructor
  · intro hid hgr hmax hconf
    simp only [is_slot_conflicting_with_bookings, List.any_eq_true]
      at hconf ⊢
    obtain ⟨b, hmem, hbody⟩ := hconf
    simp only [hid, hgr] at hbody
    refine ⟨b, hmem, ?_⟩
    by_cases houter : b.start_time - minimum_gap
        < toUTC o slot.end_time + buffer_after
        ∧ b.end_time + minimum_gap
          > toUTC o slot.start_time - buffer_before
    · rw [if_pos houter] at hbody ⊢
      by_cases hinner : (et1.is_group_event
          && (b.event_type_id == et1.id)) = true
      · rw [if_pos hinner] at hbody ⊢
        have := of_decide_eq_true hbody
        exact decide_eq_true (by omega)
      · rw [if_neg hinner]
    · rw [if_neg houter] at hbody
      exact absurd hbody Bool.false_ne_true
  · intro hcnt hconf
    simp only [is_slot_conflicting_with_bookings, List.any_eq_true]
      at hconf ⊢
    obtain ⟨b, hmem, hbody⟩ := hconf
    refine ⟨b, hmem, ?_⟩
    by_cases houter : b.start_time - minimum_gap
        < toUTC o slot.end_time + buffer_after
        ∧ b.end_time + minimum_gap
          > toUTC o slot.start_time - buffer_before
    · rw [if_pos houter] at hbody ⊢
      by_cases hinner : (et1.is_group_event
          && (b.event_type_id == et1.id)) = true
      · rw [if_pos hinner] at hbody ⊢
        have := of_decide_eq_true hbody
        exact decide_eq_true (by omega)
      · rw [if_neg hinner]
    · rw [if_neg houter] at hbody
      exact absurd hbody Bool.false_ne_true

theorem c9_capacity_monotone_witness :
    is_slot_conflicting_with_bookings (fun _ => 0)
        ⟨[], [], [], [],
          [⟨1, 739257 * 1440 + 540, 739257 * 1440 + 570, "confirmed", 4⟩],
          ⟨0, 0, 0, 30⟩, "UTC", 9, 18⟩
        ⟨1, 30, none, none, none, true, 3⟩
        ⟨⟨739257 * 1440 + 540, "UTC"⟩, ⟨739257 * 1440 + 570, "UTC"⟩, 30,
          [], none, none, none, none⟩
        2 0 0 0 = true
    ∧ is_slot_conflicting_with_bookings (fun _ => 0)
        ⟨[], [], [], [],
          [⟨1, 739257 * 1440 + 540, 739257 * 1440 + 570, "confirmed", 4⟩],
          ⟨0, 0, 0, 30⟩, "UTC", 9, 18⟩
        ⟨1, 30, none, none, none, true, 3⟩
        ⟨⟨739257 * 1440 + 540, "UTC"⟩, ⟨739257 * 1440 + 570, "UTC"⟩, 30,
          [], none, none, none, none⟩
        7 0 0 0 = true :=
  ⟨(c9_capacity_monotone (fun _ => 0) _ ⟨1, 30, none, none, none, true, 3⟩
      ⟨1, 30, none, none, none, true, 5⟩ _ 2 0 0 0 7).1 (by decide)
     (by decide) (by decide) (by decide),
   (c9_capacity_monotone (fun _ => 0) _ ⟨1, 30, none, none, none, true, 3⟩
      ⟨1, 30, none, none, none, true, 5⟩ _ 2 0 0 0 7).2 (by decide)
     (by decide)⟩

/-! ### C8 — dirty-set stickiness -/

theorem dirtyCacheKey_inj (a b : String)
    (h : dirtyCacheKey a = dirtyCacheKey b) : a = b := by
  unfold dirtyCacheKey at h
  have hd := congrArg String.data h
  rw [String.data_append, String.data_append] at hd
  exact string_eq_of_data _ _ (List.append_cancel_left hd)

/-- C8 (confirmed): a `mark_cache_dirty` with
`requires_full_invalidation=true` stores a true flag; the flag survives
any sequence of further `mark_cache_dirty`/`clear_dirty_flags` calls
that contains no clear for this organizer; `clear_dirty_flags` removes
the entry. -/
theorem c8_sticky_full_invalidation (s : CacheState) (org : String) :
    (∀ cache_type timestamp extras,
      ((mark_cache_dirty s org cache_type true timestamp extras).dirty
          (dirtyCacheKey org)).map (·.requires_full_invalidation)
        = some true)
    ∧ (∀ ops : List CacheOp, (∀ op ∈ ops, op ≠ CacheOp.clear org) →
        ((s.dirty (dirtyCacheKey org)).map (·.requires_full_invalidation)
          = some true) →
        (((ops.foldl runCacheOp s).dirty (dirtyCacheKey org)).map
            (·.requires_full_invalidation)
          = some true))
    ∧ ((clear_dirty_flags s org).dirty (dirtyCacheKey org) = none) := by
  refine ⟨?_, ?_, ?_⟩
  · intro ct ts ex
    simp only [mark_cache_dirty]
    rfl
  · intro ops
    induction ops generalizing s with
    | nil =>
      intro _ h
      simpa using h
    | cons op rest ih =>
      intro hops h
      rw [List.foldl_cons]
      apply ih _ (fun op' hop' => hops op' (List.mem_cons_of_mem _ hop'))
      cases op with
      | mark org2 ct rfi ts ex =>
        by_cases horg : dirtyCacheKey org2 = dirtyCacheKey org
        · obtain ⟨D, hD, hDr⟩ := Option.map_eq_some'.mp h
          simp only [runCacheOp, mark_cache_dirty]
          rw [if_pos horg.symm, horg, hD]
          cases rfi <;> simp [hDr]
        · simp only [runCacheOp, mark_cache_dirty]
          rw [if_neg (fun hk => horg hk.symm)]
          exact h
      | clear org2 =>
        have horg2 : org2 ≠ org := by
          intro hh
          exact hops _ (List.mem_cons_self _ _) (by rw [hh])
        simp only [runCacheOp, clear_dirty_flags]
        rw [if_neg (fun hk => horg2 ((dirtyCacheKey_inj _ _ hk).symm))]
        exact h
  · simp only [clear_dirty_flags]
    rfl

theorem c8_sticky_full_invalidation_witness :
    ((([CacheOp.mark "o1" "availability" false "t2" [],
        CacheOp.clear "o2"]).foldl runCacheOp
          (mark_cache_dirty ⟨fun _ => none, []⟩ "o1" "availability" true
            "t1" [])).dirty (dirtyCacheKey "o1")).map
        (·.requires_full_invalidation)
      = some true :=
  (c8_sticky_full_invalidation
      (mark_cache_dirty ⟨fun _ => none, []⟩ "o1" "availability" true "t1" [])
      "o1").2.1
    [CacheOp.mark "o1" "availability" false "t2" [], CacheOp.clear "o2"]
    (by decide)
    ((c8_sticky_full_invalidation ⟨fun _ => none, []⟩ "o1").1
      "availability" "t1" [])

/-! ### C10 — reversed date range -/

/-- C10 (confirmed): with `start_date` strictly after `end_date` the
orchestrator neither raises nor warns about the range: the day loop
never runs, the slot list is empty, the warnings are exactly the
timezone-validation warnings, and `date_range_days` is
`(end − start).days + 1 ≤ 0`. -/
theorem c10_reversed_range (o : Offsets) (dstO : String → Int → Bool)
    (V : String → Bool) (env : Env) (event_type : EventType)
    (start_date end_date : PyDate) (invitee_timezone : String)
    (attendee_count : Int) (invitee_timezones : List String)
    (h : dateLt end_date start_date = true) :
    (calculate_available_slots o dstO V env event_type start_date end_date
        invitee_timezone attendee_count invitee_timezones).slots = []
    ∧ (calculate_available_slots o dstO V env event_type start_date end_date
        invitee_timezone attendee_count invitee_timezones).warnings
      = (invitee_tz_resolution V invitee_timezone).1
        ++ (invitee_tzs_resolution V invitee_timezones).1
        ++ (organizer_tz_resolution V env).1
    ∧ (calculate_available_slots o dstO V env event_type start_date end_date
        invitee_timezone attendee_count
        invitee_timezones).performance_metrics.date_range_days
      = (toordinal end_date : Int) - (toordinal start_date : Int) + 1
    ∧ (calculate_available_slots o dstO V env event_type start_date end_date
        invitee_timezone attendee_count
        invitee_timezones).performance_metrics.date_range_days ≤ 0 := by
  have hlt := toordinal_lt_of_dateLt _ _ h
  have hfuel : toordinal end_date + 1 - toordinal start_date = 0 := by omega
  have hall : ∀ (tzx : String) (att bb ba gap ivl : Int),
      all_slots_for_range o env event_type start_date end_date tzx att bb ba
        gap ivl = [] := by
    intro tzx att bb ba gap ivl
    unfold all_slots_for_range
    rw [hfuel]
    rfl
  refine ⟨?_, rfl, ?_, ?_⟩
  · simp only [calculate_available_slots, hall]
    by_cases hb : (invitee_tzs_resolution V invitee_timezones).2.length > 1
    · rw [if_pos hb]
      simp [calculate_multi_invitee_intersection, enhance_slots_with_dst_info]
    · rw [if_neg hb]
      simp [enhance_slots_with_dst_info]
  · rfl
  · show dateSubDays end_date start_date + 1 ≤ 0
    unfold dateSubDays
    omega

theorem c10_reversed_range_witness :
    dateLt
        ⟨2025, 1, 1, by decide, by decide, by decide, by decide, by decide⟩
        ⟨2025, 1, 2, by decide, by decide, by decide, by decide, by decide⟩
      = true
    ∧ ((calculate_available_slots (fun _ => 0) (fun _ _ => false)
          (fun s => s == "UTC")
          ⟨[⟨0, 540, 600, [], true⟩], [], [], [], [], ⟨0, 0, 0, 30⟩, "UTC",
            9, 18⟩
          ⟨1, 30, none, none, none, false, 0⟩
          ⟨2025, 1, 2, by decide, by decide, by decide, by decide, by decide⟩
          ⟨2025, 1, 1, by decide, by decide, by decide, by decide, by decide⟩
          "UTC" 1 []).slots = []
      ∧ (calculate_available_slots (fun _ => 0) (fun _ _ => false)
          (fun s => s == "UTC")
          ⟨[⟨0, 540, 600, [], true⟩], [], [], [], [], ⟨0, 0, 0, 30⟩, "UTC",
            9, 18⟩
          ⟨1, 30, none, none, none, false, 0⟩
          ⟨2025, 1, 2, by decide, by decide, by decide, by decide, by decide⟩
          ⟨2025, 1, 1, by decide, by decide, by decide, by decide, by decide⟩
          "UTC" 1 []).warnings
        = (invitee_tz_resolution (fun s => s == "UTC") "UTC").1
          ++ (invitee_tzs_resolution (fun s => s == "UTC") []).1
          ++ (organizer_tz_resolution (fun s => s == "UTC")
              ⟨[⟨0, 540, 600, [], true⟩], [], [], [], [], ⟨0, 0, 0, 30⟩,
                "UTC", 9, 18⟩).1
      ∧ (calculate_available_slots (fun _ => 0) (fun _ _ => false)
          (fun s => s == "UTC")
          ⟨[⟨0, 540, 600, [], true⟩], [], [], [], [], ⟨0, 0, 0, 30⟩, "UTC",
            9, 18⟩
          ⟨1, 30, none, none, none, false, 0⟩
          ⟨2025, 1, 2, by decide, by decide, by decide, by decide, by decide⟩
          ⟨2025, 1, 1, by decide, by decide, by decide, by decide, by decide⟩
          "UTC" 1 []).performance_metrics.date_range_days
        = (toordinal (⟨2025, 1, 1, by decide, by decide, by decide, by decide,
            by decide⟩ : PyDate) : Int)
          - (toordinal (⟨2025, 1, 2, by decide, by decide, by decide,
              by decide, by decide⟩ : PyDate) : Int) + 1
      ∧ (calculate_available_slots (fun _ => 0) (fun _ _ => false)
          (fun s => s == "UTC")
          ⟨[⟨0, 540, 600, [], true⟩], [], [], [], [], ⟨0, 0, 0, 30⟩, "UTC",
            9, 18⟩
          ⟨1, 30, none, none, none, false, 0⟩
          ⟨2025, 1, 2, by decide, by decide, by decide, by decide, by decide⟩
          ⟨2025, 1, 1, by decide, by decide, by decide, by decide, by decide⟩
          "UTC" 1 []).performance_metrics.date_range_days ≤ 0) :=
  ⟨by decide,
   c10_reversed_range (fun _ => 0) (fun _ _ => false) (fun s => s == "UTC")
     ⟨[⟨0, 540, 600, [], true⟩], [], [], [], [], ⟨0, 0, 0, 30⟩, "UTC", 9, 18⟩
     ⟨1, 30, none, none, none, false, 0⟩
     ⟨2025, 1, 2, by decide, by decide, by decide, by decide, by decide⟩
     ⟨2025, 1, 1, by decide, by decide, by decide, by decide, by decide⟩
     "UTC" 1 [] (by decide)⟩

/-! ### C5 — ordering of produced slots -/

theorem toUTC_pymax_left (o : Offsets) (a b : AwareDt) :
    toUTC o a ≤ toUTC o (pymax o a b) := by
  unfold pymax
  split <;> omega

theorem toUTC_addMinutes (o : Offsets) (a : AwareDt) (m : Int) :
    toUTC o (a.addMinutes m) = toUTC o a + m := by
  simp only [toUTC, AwareDt.addMinutes]
  omega

theorem genSlotsAux_facts (o : Offsets) (e : AwareDt) (dur ivl : Int)
    (hivl : 0 ≤ ivl) :
    ∀ (fuel : Nat) (cur : AwareDt), ∀ s ∈ genSlotsAux e dur ivl o fuel cur,
      toUTC o cur ≤ toUTC o s.start_time
        ∧ toUTC o s.start_time + dur ≤ toUTC o e := by
  intro fuel
  induction fuel with
  | zero => intro cur s hs; simp [genSlotsAux] at hs
  | succ f ih =>
    intro cur s hs
    rw [genSlotsAux] at hs
    by_cases hg : toUTC o (cur.addMinutes dur) ≤ toUTC o e
    · rw [if_pos hg] at hs
      rw [toUTC_addMinutes] at hg
      rcases List.mem_cons.mp hs with rfl | hs2
      · exact ⟨le_rfl, hg⟩
      · obtain ⟨h1, h2⟩ := ih (cur.addMinutes ivl) s hs2
        rw [toUTC_addMinutes] at h1
        exact ⟨by omega, h2⟩
    · rw [if_neg hg] at hs
      simp at hs

theorem genSlotsAux_sorted (o : Offsets) (e : AwareDt) (dur ivl : Int)
    (hivl : 0 ≤ ivl) :
    ∀ (fuel : Nat) (cur : AwareDt),
      (genSlotsAux e dur ivl o fuel cur).Pairwise
        (fun a b => toUTC o a.start_time ≤ toUTC o b.start_time) := by
  intro fuel
  induction fuel with
  | zero => intro cur; simp [genSlotsAux]
  | succ f ih =>
    intro cur
    rw [genSlotsAux]
    by_cases hg : toUTC o (cur.addMinutes dur) ≤ toUTC o e
    · rw [if_pos hg]
      refine List.Pairwise.cons ?_ (ih (cur.addMinutes ivl))
      intro s hs
      obtain ⟨h1, -⟩ := genSlotsAux_facts o e dur ivl hivl f
        (cur.addMinutes ivl) s hs
      rw [toUTC_addMinutes] at h1
      show toUTC o cur ≤ toUTC o s.start_time
      omega
    · rw [if_neg hg]
      simp

theorem mergeRuns_facts (o : Offsets) :
    ∀ (xs : List (AwareDt × AwareDt)) (cur : AwareDt × AwareDt),
      toUTC o cur.1 ≤ toUTC o cur.2 →
      (∀ I ∈ xs, toUTC o I.1 ≤ toUTC o I.2) →
      List.Pairwise (fun a b => toUTC o a.1 ≤ toUTC o b.1) (cur :: xs) →
      (∀ J ∈ mergeRuns o cur xs,
        (toUTC o J.1 ≤ toUTC o J.2 ∧ toUTC o cur.1 ≤ toUTC o J.1))
      ∧ List.Pairwise (fun I J => toUTC o I.2 < toUTC o J.1)
          (mergeRuns o cur xs) := by
  intro xs
  induction xs with
  | nil =>
    intro cur hP _ _
    rw [mergeRuns]
    constructor
    · intro J hJ
      rw [List.mem_singleton] at hJ
      subst hJ
      exact ⟨hP, le_rfl⟩
    · exact List.pairwise_singleton _ _
  | cons x xs ih =>
    intro cur hP hPall hsort
    rw [mergeRuns]
    by_cases hle : toUTC o x.1 ≤ toUTC o cur.2
    · rw [if_pos hle]
      have hP2 : toUTC o (cur.1, pymax o cur.2 x.2).1
          ≤ toUTC o (cur.1, pymax o cur.2 x.2).2 := by
        have := toUTC_pymax_left o cur.2 x.2
        show toUTC o cur.1 ≤ toUTC o (pymax o cur.2 x.2)
        omega
      have hPall2 : ∀ I ∈ xs, toUTC o I.1 ≤ toUTC o I.2 :=
        fun I hI => hPall I (List.mem_cons_of_mem _ hI)
      have hsort2 : List.Pairwise (fun a b => toUTC o a.1 ≤ toUTC o b.1)
          ((cur.1, pymax o cur.2 x.2) :: xs) := by
        refine List.pairwise_cons.mpr
          ⟨?_, (List.pairwise_cons.mp (List.pairwise_cons.mp hsort).2).2⟩
        intro y hy
        exact (List.pairwise_cons.mp hsort).1 y (List.mem_cons_of_mem _ hy)
      obtain ⟨hmem, hpw⟩ := ih (cur.1, pymax o cur.2 x.2) hP2 hPall2 hsort2
      exact ⟨hmem, hpw⟩
    · rw [if_neg hle]
      push_neg at hle
      have hx : toUTC o x.1 ≤ toUTC o x.2 := hPall x (List.mem_cons_self _ _)
      have hPall2 : ∀ I ∈ xs, toUTC o I.1 ≤ toUTC o I.2 :=
        fun I hI => hPall I (List.mem_cons_of_mem _ hI)
      have hsort2 := (List.pairwise_cons.mp hsort).2
      obtain ⟨hmem, hpw⟩ := ih x hx hPall2 hsort2
      constructor
      · intro J hJ
        rcases List.mem_cons.mp hJ with rfl | hJ2
        · exact ⟨hP, le_rfl⟩
        · obtain ⟨h1, h2⟩ := hmem J hJ2
          exact ⟨h1, by omega⟩
      · refine List.pairwise_cons.mpr ⟨?_, hpw⟩
        intro J hJ
        obtain ⟨h1, h2⟩ := hmem J hJ
        omega

theorem merge_overlapping_facts (o : Offsets) (l : List (AwareDt × AwareDt))
    (hP : ∀ I ∈ l, toUTC o I.1 ≤ toUTC o I.2) :
    (∀ J ∈ merge_overlapping_intervals o l, toUTC o J.1 ≤ toUTC o J.2)
    ∧ List.Pairwise (fun I J => toUTC o I.2 < toUTC o J.1)
        (merge_overlapping_intervals o l) := by
  have htrans : ∀ (a b c : AwareDt × AwareDt), intervalLe o a b →
      intervalLe o b c → intervalLe o a c := by
    intro a b c hab hbc
    simp only [intervalLe, decide_eq_true_eq] at *
    omega
  have htotal : ∀ (a b : AwareDt × AwareDt),
      intervalLe o a b || intervalLe o b a := by
    intro a b
    simp only [intervalLe, Bool.or_eq_true, decide_eq_true_eq]
    omega
  have hsorted := List.sorted_mergeSort htrans htotal l
  unfold merge_overlapping_intervals
  cases hm : List.mergeSort l (intervalLe o) with
  | nil => simp
  | cons x xs =>
    have hPall : ∀ I ∈ x :: xs, toUTC o I.1 ≤ toUTC o I.2 := by
      intro I hI
      apply hP
      have : I ∈ List.mergeSort l (intervalLe o) := by rw [hm]; exact hI
      exact List.mem_mergeSort.mp this
    have hsort2 : List.Pairwise (fun a b => toUTC o a.1 ≤ toUTC o b.1)
        (x :: xs) := by
      rw [hm] at hsorted
      exact hsorted.imp (fun hab => of_decide_eq_true hab)
    obtain ⟨hmem, hpw⟩ := mergeRuns_facts o xs x
      (hPall x (List.mem_cons_self _ _))
      (fun I hI => hPall I (List.mem_cons_of_mem _ hI)) hsort2
    exact ⟨fun J hJ => (hmem J hJ).1, hpw⟩

theorem daily_intervals_facts (o : Offsets) (env : Env)
    (event_type : EventType) (target_date : PyDate) (tz : String)
    (hov : applicable_overrides env event_type target_date = [])
    (htimes : ∀ r ∈ env.availabilityRules, 0 ≤ r.start_time
      ∧ r.start_time < 1440 ∧ 0 ≤ r.end_time ∧ r.end_time < 1440) :
    (∀ J ∈ _get_daily_available_intervals o env event_type target_date tz,
      toUTC o J.1 ≤ toUTC o J.2)
    ∧ List.Pairwise (fun I J => toUTC o I.2 < toUTC o J.1)
        (_get_daily_available_intervals o env event_type target_date tz) := by
  simp only [_get_daily_available_intervals, hov, List.isEmpty_nil, if_true]
  apply merge_overlapping_facts
  intro I hI
  rw [List.mem_map] at hI
  obtain ⟨r, hr, rfl⟩ := hI
  have hr2 : r ∈ env.availabilityRules :=
    (List.mem_filter.mp (List.mem_filter.mp hr).1).1
  obtain ⟨h1, h2, h3, h4⟩ := htimes r hr2
  simp only [composeInterval, toUTC, AvailabilityRule.spans_midnight]
  by_cases hse : r.end_time ≤ r.start_time
  · rw [if_pos (decide_eq_true hse)]
    omega
  · rw [if_neg (by simpa using hse)]
    omega

/-- C5 (amended): before multi-invitee sorting, the slots of a single
day resolved through recurring rules (no applicable override, rule
times being valid times-of-day, nonnegative duration and cadence) are
in non-decreasing start-instant order; after multi-invitee sorting the
list is ordered by fairness score descending, and the sort is stable:
for every fairness value the slots carrying it keep their pre-sort
relative order (so ties are in ascending start order only when the
pre-sort list was ascending — days resolved through multiple
DateOverrideRule rows follow database row order and need not be). -/
theorem c5_slot_ordering :
    (∀ (o : Offsets) (env : Env) (event_type : EventType)
        (target_date : PyDate) (tz : String) (att bb ba gap ivl : Int),
      applicable_overrides env event_type target_date = [] →
      (∀ r ∈ env.availabilityRules, 0 ≤ r.start_time ∧ r.start_time < 1440
        ∧ 0 ≤ r.end_time ∧ r.end_time < 1440) →
      0 ≤ event_type.duration → 0 ≤ ivl →
      (_calculate_daily_slots o env event_type target_date tz att bb ba gap
          ivl).Pairwise
        (fun a b => toUTC o a.start_time ≤ toUTC o b.start_time))
    ∧ (∀ (o : Offsets) (slots : List Slot) (tzs : List String) (env : Env),
      (calculate_multi_invitee_intersection o slots tzs env).Pairwise
        (fun a b => b.fairness_score.getD 0 ≤ a.fairness_score.getD 0))
    ∧ (∀ (o : Offsets) (slots : List Slot) (tzs : List String) (env : Env)
        (q : ℚ),
      (calculate_multi_invitee_intersection o slots tzs env).filter
          (fun s => decide (s.fairness_score.getD 0 = q))
        = (slots.map (enhanceForInvitees o env.reasonable_hours_start
            env.reasonable_hours_end tzs)).filter
          (fun s => decide (s.fairness_score.getD 0 = q))) := by
  have htrans : ∀ (a b c : Slot), multiInviteeLe a b → multiInviteeLe b c →
      multiInviteeLe a c := by
    intro a b c hab hbc
    simp only [multiInviteeLe, decide_eq_true_eq] at *
    exact le_trans hbc hab
  have htotal : ∀ (a b : Slot), multiInviteeLe a b || multiInviteeLe b a := by
    intro a b
    simp only [multiInviteeLe, Bool.or_eq_true, decide_eq_true_eq]
    exact le_total _ _
  refine ⟨?_, ?_, ?_⟩
  · intro o env event_type target_date tz att bb ba gap ivl hov htimes hdur
      hivl
    simp only [_calculate_daily_slots]
    by_cases hE : (_get_daily_available_intervals o env event_type
        target_date tz).isEmpty
    · rw [if_pos hE]
      exact List.Pairwise.nil
    · rw [if_neg hE]
      apply List.Pairwise.filter
      rw [List.pairwise_flatMap]
      obtain ⟨hwf, hgap⟩ := daily_intervals_facts o env event_type
        target_date tz hov htimes
      constructor
      · intro I hI
        exact genSlotsAux_sorted o I.2 event_type.duration ivl hivl _ I.1
      · refine List.Pairwise.imp_of_mem ?_ hgap
        intro I J hI hJ hIJ x hx y hy
        obtain ⟨-, hx2⟩ := genSlotsAux_facts o I.2 event_type.duration ivl
          hivl _ I.1 x hx
        obtain ⟨hy1, -⟩ := genSlotsAux_facts o J.2 event_type.duration ivl
          hivl _ J.1 y hy
        have hJ1 := hwf J hJ
        omega
  · intro o slots tzs env
    unfold calculate_multi_invitee_intersection
    exact (List.sorted_mergeSort htrans htotal _).imp
      (fun h => of_decide_eq_true h)
  · intro o slots tzs env q
    unfold calculate_multi_invitee_intersection
    set pre := slots.map (enhanceForInvitees o env.reasonable_hours_start
      env.reasonable_hours_end tzs) with hpre
    set p : Slot → Bool := fun s => decide (s.fairness_score.getD 0 = q)
      with hp
    have hq : ∀ s ∈ pre.filter p, s.fairness_score.getD 0 = q := by
      intro s hs
      have := List.of_mem_filter hs
      rw [hp] at this
      exact of_decide_eq_true this
    have hFpair : (pre.filter p).Pairwise
        (fun a b => multiInviteeLe a b) := by
      apply List.pairwise_of_forall_mem_list
      intro a ha b hb
      simp only [multiInviteeLe, decide_eq_true_eq, hq a ha, hq b hb]
      exact le_rfl
    have hsubOut : List.Sublist (pre.filter p)
        (List.mergeSort pre multiInviteeLe) :=
      List.sublist_mergeSort htrans htotal hFpair (List.filter_sublist pre)
    have hall : ∀ s ∈ pre.filter p, p s = true :=
      fun s hs => List.of_mem_filter hs
    have h1 : List.Sublist (pre.filter p)
        ((List.mergeSort pre multiInviteeLe).filter p) := by
      have h2 := List.Sublist.filter p hsubOut
      rwa [List.filter_eq_self.mpr hall] at h2
    have hlen : ((List.mergeSort pre multiInviteeLe).filter p).length
        = (pre.filter p).length := by
      rw [← List.countP_eq_length_filter, ← List.countP_eq_length_filter]
      exact List.Perm.countP_eq p (List.mergeSort_perm pre multiInviteeLe)
    exact (h1.eq_of_length hlen.symm).symm

theorem c5_slot_ordering_witness :
    (applicable_overrides
        ⟨[⟨0, 540, 600, [], true⟩], [], [], [], [], ⟨0, 0, 0, 30⟩, "UTC",
          9, 18⟩
        ⟨1, 30, none, none, none, false, 0⟩
        ⟨2025, 1, 6, by decide, by decide, by decide, by decide, by decide⟩
      = [])
    ∧ (_calculate_daily_slots (fun _ => 0)
        ⟨[⟨0, 540, 600, [], true⟩], [], [], [], [], ⟨0, 0, 0, 30⟩, "UTC",
          9, 18⟩
        ⟨1, 30, none, none, none, false, 0⟩
        ⟨2025, 1, 6, by decide, by decide, by decide, by decide, by decide⟩
        "UTC" 1 0 0 0 30).Pairwise
      (fun a b => toUTC (fun _ => 0) a.start_time
        ≤ toUTC (fun _ => 0) b.start_time) :=
  ⟨by decide,
   c5_slot_ordering.1 (fun _ => 0)
     ⟨[⟨0, 540, 600, [], true⟩], [], [], [], [], ⟨0, 0, 0, 30⟩, "UTC", 9, 18⟩
     ⟨1, 30, none, none, none, false, 0⟩
     ⟨2025, 1, 6, by decide, by decide, by decide, by decide, by decide⟩
     "UTC" 1 0 0 0 30 (by decide) (by decide) (by decide) (by decide)⟩

/-- C5 (counterexample): a date resolved through two applicable
`is_available=true` overrides stored in descending start order yields
accepted slots out of start order before multi-invitee sorting
(13:00, 13:30, 09:00, 09:30), refuting the claimed non-decreasing
pre-sort ordering. -/
theorem c5_counterexample :
    ¬ (all_slots_for_range (fun _ => 0)
        ⟨[],
          [⟨⟨2025, 1, 6, by decide, by decide, by decide, by decide,
              by decide⟩, true, some 780, some 840, [], true⟩,
           ⟨⟨2025, 1, 6, by decide, by decide, by decide, by decide,
              by decide⟩, true, some 540, some 600, [], true⟩],
          [], [], [], ⟨0, 0, 0, 30⟩, "UTC", 9, 18⟩
        ⟨1, 30, none, none, none, false, 0⟩
        ⟨2025, 1, 6, by decide, by decide, by decide, by decide, by decide⟩
        ⟨2025, 1, 6, by decide, by decide, by decide, by decide, by decide⟩
        "UTC" 1 0 0 0 30).Pairwise
      (fun a b => toUTC (fun _ => 0) a.start_time
        ≤ toUTC (fun _ => 0) b.start_time) := by
  decide

end Availability
